import Mathlib

/-!
Shallow embedding of the repository's doubly-linked-list module
(`algorithm with c/dlist.c`) and of the Excel-column-number function
(`leetcode/cpp/171-ExcelSheetColumnNumber.cpp`).

Heap pointers are modelled by an arena: a finite association list from
natural-number node ids to node records.  `NULL` is `Option.none`.  A
fresh-id counter models `malloc` returning a pointer distinct from every
live node; an explicit `allocOk` argument models `malloc` failure.  The
function-pointer fields `destroy` and `match` of the C struct are modelled
by the booleans `hasDestroy` / `hasMatch` (is the pointer non-NULL), and a
callback invocation is recorded by appending the payload it receives to an
output list.  C code paths that dereference a pointer that is not a live
node (undefined behaviour in C) return the explicit result `CRes.ub`.

The C source contains three immaterial spelling slips (`const *void` in
the `dlist_init` prototype, the field spelled `destory` inside
`dlist_destroy`, and a stray parenthesis in the same `if` condition);
they are transcribed here in the only reading consistent with the rest of
the file and with the header's field names (`destroy`, used by
`dlist_init`).
-/

namespace DL

/-- One list node: `data`, `prev`, `next` of `DListElmt` in dlist.c. -/
structure Node (α : Type u) where
  data : α
  prev : Option Nat
  next : Option Nat
  deriving Repr, DecidableEq

/-- The heap of live nodes: node id to node record. -/
abbrev Arena (α : Type u) := List (Nat × Node α)

namespace Arena

/-- Dereference a node pointer (`none` when the id is not a live node). -/
def find (ar : Arena α) (i : Nat) : Option (Node α) :=
  (List.find? (fun e => e.1 = i) ar).map (·.2)

/-- `malloc` of a fresh node. -/
def alloc (ar : Arena α) (i : Nat) (nd : Node α) : Arena α :=
  (i, nd) :: ar

/-- The field assignment `p->prev = v`. -/
def setPrev (ar : Arena α) (i : Nat) (v : Option Nat) : Arena α :=
  ar.map fun e => if e.1 = i then (e.1, { e.2 with prev := v }) else e

/-- The field assignment `p->next = v`. -/
def setNext (ar : Arena α) (i : Nat) (v : Option Nat) : Arena α :=
  ar.map fun e => if e.1 = i then (e.1, { e.2 with next := v }) else e

/-- `free` of a node. -/
def erase (ar : Arena α) (i : Nat) : Arena α :=
  ar.filter fun e => e.1 ≠ i

/-- The ids of the live nodes. -/
def keys (ar : Arena α) : List Nat :=
  ar.map Prod.fst

end Arena

/-- The `DList` struct of dlist.h, as described in §3 of the design:
size, head, tail, and the two optional callbacks (modelled as "is the
function pointer non-NULL").  `arena` and `fresh` model the heap and
`malloc` freshness; they are not struct fields. -/
structure DList (α : Type u) where
  size : Nat
  head : Option Nat
  tail : Option Nat
  arena : Arena α
  fresh : Nat
  hasDestroy : Bool
  hasMatch : Bool
  deriving Repr, DecidableEq

/-- Outcome of a C list operation: `err s` is `return -1` with the list
left in state `s`, `ok s out` is `return 0` with result state `s` and
output `out`, and `ub` marks a path on which the C code dereferences a
pointer that is not a live node. -/
inductive CRes (σ : Type u) (β : Type v) where
  | err : σ → CRes σ β
  | ok : σ → β → CRes σ β
  | ub : CRes σ β
  deriving Repr, DecidableEq

/-- `dlist_init`: zero size, the callbacks stored, no head or tail. -/
def dlist_init (α : Type u) (d m : Bool) : DList α :=
  { size := 0, head := none, tail := none, arena := [], fresh := 0,
    hasDestroy := d, hasMatch := m }

/-- `dlist_ins_next` (dlist.c lines 34-68).  `allocOk` models whether the
`malloc` call succeeds. -/
def dlist_ins_next (l : DList α) (element : Option Nat) (data : α)
    (allocOk : Bool) : CRes (DList α) Unit :=
  if element = none ∧ l.size ≠ 0 then .err l
  else if allocOk = false then .err l
  else if l.size = 0 then
    .ok { l with head := some l.fresh, tail := some l.fresh,
                 arena := l.arena.alloc l.fresh ⟨data, none, none⟩,
                 fresh := l.fresh + 1, size := l.size + 1 } ()
  else
    match element with
    | none => .ub
    | some e =>
      match l.arena.find e with
      | none => .ub
      | some nd =>
        let ar1 := l.arena.alloc l.fresh ⟨data, some e, nd.next⟩
        match nd.next with
        | none =>
          .ok { l with tail := some l.fresh,
                       arena := ar1.setNext e (some l.fresh),
                       fresh := l.fresh + 1, size := l.size + 1 } ()
        | some j =>
          .ok { l with arena := (ar1.setPrev j (some l.fresh)).setNext e (some l.fresh),
                       fresh := l.fresh + 1, size := l.size + 1 } ()

/-- `dlist_ins_prev` (dlist.c lines 70-104), the mirror image. -/
def dlist_ins_prev (l : DList α) (element : Option Nat) (data : α)
    (allocOk : Bool) : CRes (DList α) Unit :=
  if element = none ∧ l.size ≠ 0 then .err l
  else if allocOk = false then .err l
  else if l.size = 0 then
    .ok { l with head := some l.fresh, tail := some l.fresh,
                 arena := l.arena.alloc l.fresh ⟨data, none, none⟩,
                 fresh := l.fresh + 1, size := l.size + 1 } ()
  else
    match element with
    | none => .ub
    | some e =>
      match l.arena.find e with
      | none => .ub
      | some nd =>
        let ar1 := l.arena.alloc l.fresh ⟨data, nd.prev, some e⟩
        match nd.prev with
        | none =>
          .ok { l with head := some l.fresh,
                       arena := ar1.setPrev e (some l.fresh),
                       fresh := l.fresh + 1, size := l.size + 1 } ()
        | some p =>
          .ok { l with arena := (ar1.setNext p (some l.fresh)).setPrev e (some l.fresh),
                       fresh := l.fresh + 1, size := l.size + 1 } ()

/-- `dlist_remove` (dlist.c lines 105-133).  Returns the removed payload
as the `ok` output (`*data`). -/
def dlist_remove (l : DList α) (element : Option Nat) : CRes (DList α) α :=
  match element with
  | none => .err l
  | some e =>
    if l.size = 0 then .err l
    else
      match l.arena.find e with
      | none => .ub
      | some nd =>
        if l.head = some e then
          match nd.next with
          | none =>
            .ok { l with head := none, tail := none,
                         arena := l.arena.erase e, size := l.size - 1 } nd.data
          | some j =>
            .ok { l with head := some j,
                         arena := (l.arena.setPrev j none).erase e,
                         size := l.size - 1 } nd.data
        else
          match nd.prev with
          | none => .ub
          | some p =>
            let ar1 := l.arena.setNext p nd.next
            match nd.next with
            | none =>
              .ok { l with tail := some p, arena := ar1.erase e,
                           size := l.size - 1 } nd.data
            | some j =>
              .ok { l with arena := (ar1.setPrev j (some p)).erase e,
                           size := l.size - 1 } nd.data

/-- The `while (dlist_size(list) > 0)` loop of `dlist_destroy`, with the
list size as fuel (each successful removal decrements `size`, so the fuel
suffices; on a state the loop could not leave, the fuel just runs out).
Returns the final state together with the payloads passed to the
`destroy` callback, in invocation order. -/
def destroyLoop : Nat → DList α → DList α × List α
  | 0, l => (l, [])
  | fuel + 1, l =>
    if l.size = 0 then (l, [])
    else
      match dlist_remove l l.tail with
      | .ok l' d =>
        let r := destroyLoop fuel l'
        (r.1, (if l.hasDestroy then [d] else []) ++ r.2)
      | _ => (l, [])

/-- `dlist_destroy` (dlist.c lines 15-32): remove from the tail until
empty, invoking the destroy callback (when non-NULL) on each removed
payload, then `memset(list, 0, sizeof(DList))`. -/
def dlist_destroy (l : DList α) : DList α × List α :=
  let r := destroyLoop l.size l
  ({ size := 0, head := none, tail := none, arena := r.1.arena,
     fresh := r.1.fresh, hasDestroy := false, hasMatch := false }, r.2)

/-! ### Specification-side notions: scans, chain segments, representation -/

/-- Forward scan (§3/§8): follow `next` from a starting pointer for at
most `fuel` steps, collecting the node ids visited. -/
def scanFwd (ar : Arena α) : Nat → Option Nat → List Nat
  | 0, _ => []
  | _ + 1, none => []
  | fuel + 1, some i =>
    match ar.find i with
    | none => [i]
    | some nd => i :: scanFwd ar fuel nd.next

/-- Backward scan: follow `prev` from a starting pointer. -/
def scanBwd (ar : Arena α) : Nat → Option Nat → List Nat
  | 0, _ => []
  | _ + 1, none => []
  | fuel + 1, some i =>
    match ar.find i with
    | none => [i]
    | some nd => i :: scanBwd ar fuel nd.prev

/-- The first element of `o`, falling back to `n`: the pointer that a
chain link must carry when `o` is the rest of the chain and `n` closes
it. -/
def olink (o : Option Nat) (n : Option Nat) : Option Nat :=
  match o with
  | some x => some x
  | none => n

/-- `seg ar p xs n`: the ids `xs` form a doubly-linked chain segment in
`ar` whose first node has `prev = p` and whose last node has `next = n`,
with mutually consistent interior links. -/
def seg (ar : Arena α) (p : Option Nat) : List Nat → Option Nat → Bool
  | [], _ => true
  | i :: rest, n =>
    match ar.find i with
    | none => false
    | some nd =>
      nd.prev = p && nd.next = olink rest.head? n && seg ar (some i) rest n

/-- `represents l ids`: the abstract content of the list `l` is the id
sequence `ids`, in order: the size, head and tail fields agree with
`ids`, the ids chain up doubly-linked from `none` to `none`, the live
nodes of the heap are exactly the ids, and all of them are below the
fresh-allocation counter. -/
def represents (l : DList α) (ids : List Nat) : Prop :=
  l.size = ids.length ∧
  l.head = ids.head? ∧
  l.tail = ids.getLast? ∧
  seg l.arena none ids none = true ∧
  ids.Nodup ∧
  l.arena.keys.Perm ids ∧
  ∀ i ∈ ids, i < l.fresh

instance (l : DList α) (ids : List Nat) : Decidable (represents l ids) := by
  unfold represents
  infer_instance

/-- The structural invariants of §3, exactly as the spec scans them:
`size == 0` iff head and tail are none; the head's `prev` and the tail's
`next` are none; every reachable node's neighbours point back at it; and
the forward scan from head and the backward scan from tail each visit
exactly `size` nodes and agree on membership. -/
def invariantsHold (l : DList α) : Prop :=
  (l.size = 0 ↔ l.head = none ∧ l.tail = none) ∧
  (∀ h nd, l.head = some h → l.arena.find h = some nd → nd.prev = none) ∧
  (∀ t nd, l.tail = some t → l.arena.find t = some nd → nd.next = none) ∧
  (∀ i ∈ scanFwd l.arena l.size l.head, ∀ nd, l.arena.find i = some nd →
    (∀ j, nd.next = some j → ∃ ndj, l.arena.find j = some ndj ∧ ndj.prev = some i) ∧
    (∀ j, nd.prev = some j → ∃ ndj, l.arena.find j = some ndj ∧ ndj.next = some i)) ∧
  (scanFwd l.arena l.size l.head).length = l.size ∧
  (scanBwd l.arena l.size l.tail).length = l.size ∧
  (∀ i, i ∈ scanFwd l.arena l.size l.head ↔ i ∈ scanBwd l.arena l.size l.tail)

/-- The payloads stored at `ids`, in order. -/
def payloadsOf (ar : Arena α) (ids : List Nat) : List α :=
  ids.filterMap fun i => (ar.find i).map (·.data)

/-! ### Operation sequences (for the net-size law) -/

/-- One mutating call, with its arguments. -/
inductive Op (α : Type u) where
  | insNext (element : Option Nat) (data : α) (allocOk : Bool)
  | insPrev (element : Option Nat) (data : α) (allocOk : Bool)
  | remove (element : Option Nat)

/-- Execute one call. -/
def step (l : DList α) : Op α → CRes (DList α) (Option α)
  | .insNext element data allocOk =>
    match dlist_ins_next l element data allocOk with
    | .ok l' _ => .ok l' none
    | .err s => .err s
    | .ub => .ub
  | .insPrev element data allocOk =>
    match dlist_ins_prev l element data allocOk with
    | .ok l' _ => .ok l' none
    | .err s => .err s
    | .ub => .ub
  | .remove element =>
    match dlist_remove l element with
    | .ok l' d => .ok l' (some d)
    | .err s => .err s
    | .ub => .ub

/-- Is the call an insertion? -/
def Op.isIns : Op α → Bool
  | .insNext _ _ _ => true
  | .insPrev _ _ _ => true
  | .remove _ => false

/-- Run a sequence of calls, a failed call leaving its state in place as
in C, and count the successful insertions and removals.  `none` when a
call runs into undefined behaviour. -/
def run (l : DList α) : List (Op α) → Option (DList α × Nat × Nat)
  | [] => some (l, 0, 0)
  | op :: ops =>
    match step l op with
    | .ok l' _ =>
      (run l' ops).map fun r =>
        (r.1, (if op.isIns then r.2.1 + 1 else r.2.1),
              (if op.isIns then r.2.2 else r.2.2 + 1))
    | .err s => run s ops
    | .ub => none

/-! ### Arena lemmas -/

namespace Arena

theorem find_cons (e : Nat × Node α) (ar : Arena α) (j : Nat) :
    Arena.find (e :: ar) j = if e.1 = j then some e.2 else Arena.find ar j := by
  by_cases h : e.1 = j <;> simp [Arena.find, h]

theorem setPrev_cons (e : Nat × Node α) (ar : Arena α) (i : Nat) (v : Option Nat) :
    Arena.setPrev (e :: ar) i v =
      (if e.1 = i then (e.1, { e.2 with prev := v }) else e) :: Arena.setPrev ar i v := rfl

theorem setNext_cons (e : Nat × Node α) (ar : Arena α) (i : Nat) (v : Option Nat) :
    Arena.setNext (e :: ar) i v =
      (if e.1 = i then (e.1, { e.2 with next := v }) else e) :: Arena.setNext ar i v := rfl

theorem erase_cons (e : Nat × Node α) (ar : Arena α) (i : Nat) :
    Arena.erase (e :: ar) i =
      if e.1 = i then Arena.erase ar i else e :: Arena.erase ar i := by
  by_cases h : e.1 = i <;> simp [Arena.erase, List.filter_cons, h]

theorem find_alloc_self (ar : Arena α) (i : Nat) (nd : Node α) :
    (ar.alloc i nd).find i = some nd := by
  simp [Arena.alloc, find_cons]

theorem find_alloc_ne (ar : Arena α) (i j : Nat) (nd : Node α) (h : j ≠ i) :
    (ar.alloc i nd).find j = ar.find j := by
  simp [Arena.alloc, find_cons, Ne.symm h]

theorem find_setPrev_self (ar : Arena α) (i : Nat) (v : Option Nat) :
    (ar.setPrev i v).find i = (ar.find i).map fun nd => { nd with prev := v } := by
  induction ar with
  | nil => rfl
  | cons e ar ih =>
    rw [setPrev_cons]
    by_cases h : e.1 = i
    · simp [find_cons, h]
    · rw [if_neg h, find_cons, if_neg h, find_cons, if_neg h]
      exact ih

theorem find_setPrev_ne (ar : Arena α) (i j : Nat) (v : Option Nat) (h : j ≠ i) :
    (ar.setPrev i v).find j = ar.find j := by
  induction ar with
  | nil => rfl
  | cons e ar ih =>
    rw [setPrev_cons]
    by_cases he : e.1 = i
    · have hj : ¬ (e.1 = j) := by rw [he]; exact Ne.symm h
      rw [if_pos he, find_cons, find_cons, if_neg hj]
      simp only [he, if_neg (Ne.symm h)]
      exact ih
    · rw [if_neg he, find_cons, find_cons]
      by_cases hj : e.1 = j
      · rw [if_pos hj, if_pos hj]
      · rw [if_neg hj, if_neg hj]; exact ih

theorem find_setNext_self (ar : Arena α) (i : Nat) (v : Option Nat) :
    (ar.setNext i v).find i = (ar.find i).map fun nd => { nd with next := v } := by
  induction ar with
  | nil => rfl
  | cons e ar ih =>
    rw [setNext_cons]
    by_cases h : e.1 = i
    · simp [find_cons, h]
    · rw [if_neg h, find_cons, if_neg h, find_cons, if_neg h]
      exact ih

theorem find_setNext_ne (ar : Arena α) (i j : Nat) (v : Option Nat) (h : j ≠ i) :
    (ar.setNext i v).find j = ar.find j := by
  induction ar with
  | nil => rfl
  | cons e ar ih =>
    rw [setNext_cons]
    by_cases he : e.1 = i
    · have hj : ¬ (e.1 = j) := by rw [he]; exact Ne.symm h
      rw [if_pos he, find_cons, find_cons, if_neg hj]
      simp only [he, if_neg (Ne.symm h)]
      exact ih
    · rw [if_neg he, find_cons, find_cons]
      by_cases hj : e.1 = j
      · rw [if_pos hj, if_pos hj]
      · rw [if_neg hj, if_neg hj]; exact ih

theorem find_erase_ne (ar : Arena α) (i j : Nat) (h : j ≠ i) :
    (ar.erase i).find j = ar.find j := by
  induction ar with
  | nil => rfl
  | cons e ar ih =>
    rw [erase_cons]
    by_cases he : e.1 = i
    · have hj : ¬ (e.1 = j) := by rw [he]; exact Ne.symm h
      rw [if_pos he, find_cons, if_neg hj]
      exact ih
    · rw [if_neg he, find_cons, find_cons]
      by_cases hj : e.1 = j
      · rw [if_pos hj, if_pos hj]
      · rw [if_neg hj, if_neg hj]; exact ih

theorem keys_alloc (ar : Arena α) (i : Nat) (nd : Node α) :
    (ar.alloc i nd).keys = i :: ar.keys := rfl

theorem keys_setPrev (ar : Arena α) (i : Nat) (v : Option Nat) :
    (ar.setPrev i v).keys = ar.keys := by
  induction ar with
  | nil => rfl
  | cons e ar ih =>
    rw [setPrev_cons]
    by_cases h : e.1 = i
    · rw [if_pos h]
      show e.1 :: Arena.keys (Arena.setPrev ar i v) = e.1 :: Arena.keys ar
      rw [ih]
    · rw [if_neg h]
      show e.1 :: Arena.keys (Arena.setPrev ar i v) = e.1 :: Arena.keys ar
      rw [ih]

theorem keys_setNext (ar : Arena α) (i : Nat) (v : Option Nat) :
    (ar.setNext i v).keys = ar.keys := by
  induction ar with
  | nil => rfl
  | cons e ar ih =>
    rw [setNext_cons]
    by_cases h : e.1 = i
    · rw [if_pos h]
      show e.1 :: Arena.keys (Arena.setNext ar i v) = e.1 :: Arena.keys ar
      rw [ih]
    · rw [if_neg h]
      show e.1 :: Arena.keys (Arena.setNext ar i v) = e.1 :: Arena.keys ar
      rw [ih]

theorem keys_erase (ar : Arena α) (i : Nat) :
    (ar.erase i).keys = ar.keys.filter fun j => j ≠ i := by
  induction ar with
  | nil => rfl
  | cons e ar ih =>
    rw [erase_cons]
    by_cases h : e.1 = i
    · rw [if_pos h]
      show Arena.keys (Arena.erase ar i) = List.filter (fun j => j ≠ i) (e.1 :: Arena.keys ar)
      rw [List.filter_cons]
      simp only [h, decide_not, decide_True, Bool.not_true, Bool.false_eq_true, if_neg,
        ne_eq, not_true_eq_false]
      simpa using ih
    · rw [if_neg h]
      show e.1 :: Arena.keys (Arena.erase ar i) = List.filter (fun j => j ≠ i) (e.1 :: Arena.keys ar)
      rw [List.filter_cons]
      simp only [ne_eq, h, not_false_eq_true, decide_True, if_pos]
      rw [ih]

theorem find_isSome_of_mem_keys (ar : Arena α) (i : Nat) (h : i ∈ ar.keys) :
    ∃ nd, ar.find i = some nd := by
  induction ar with
  | nil => simp [Arena.keys] at h
  | cons e ar ih =>
    rw [find_cons]
    by_cases he : e.1 = i
    · exact ⟨e.2, by rw [if_pos he]⟩
    · have hmem : i ∈ Arena.keys ar := by
        have h2 : i ∈ e.1 :: Arena.keys ar := h
        rcases List.mem_cons.mp h2 with h1 | h1
        · exact absurd h1.symm he
        · exact h1
      rcases ih hmem with ⟨nd, hnd⟩
      exact ⟨nd, by rw [if_neg he]; exact hnd⟩

end Arena

/-! ### Chain-segment lemmas -/

theorem olink_none (n : Option Nat) : olink none n = n := rfl

theorem olink_some (x : Nat) (n : Option Nat) : olink (some x) n = some x := rfl

theorem seg_nil (ar : Arena α) (p n : Option Nat) : seg ar p [] n = true := rfl

theorem seg_cons (ar : Arena α) (p n : Option Nat) (i : Nat) (rest : List Nat) :
    seg ar p (i :: rest) n =
      match ar.find i with
      | none => false
      | some nd =>
        decide (nd.prev = p) && (decide (nd.next = olink rest.head? n) &&
          seg ar (some i) rest n) := by
  show seg ar p (i :: rest) n = _
  rw [seg]
  cases ar.find i with
  | none => rfl
  | some nd => simp [Bool.and_assoc]

theorem seg_cons_iff (ar : Arena α) (p n : Option Nat) (i : Nat) (rest : List Nat) :
    seg ar p (i :: rest) n = true ↔
      ∃ nd, ar.find i = some nd ∧ nd.prev = p ∧ nd.next = olink rest.head? n ∧
        seg ar (some i) rest n = true := by
  rw [seg_cons]
  cases h : ar.find i with
  | none => simp
  | some nd => simp

theorem olink_head_append (xs ys : List Nat) (n : Option Nat) :
    olink (xs ++ ys).head? n = olink xs.head? (olink ys.head? n) := by
  cases xs <;> rfl

theorem olink_getLast_cons (x : Nat) (xs : List Nat) (p : Option Nat) :
    olink ((x :: xs).getLast?) p = olink xs.getLast? (some x) := by
  cases xs with
  | nil => rfl
  | cons y ys =>
    rw [List.getLast?_cons_cons]
    have : ((y :: ys).getLast?).isSome := by
      rw [List.getLast?_isSome]
      exact List.cons_ne_nil y ys
    rcases Option.isSome_iff_exists.mp this with ⟨z, hz⟩
    rw [hz, olink_some, olink_some]

theorem seg_append (ar : Arena α) (xs : List Nat) :
    ∀ (p n : Option Nat) (ys : List Nat),
      seg ar p (xs ++ ys) n = true ↔
        (seg ar p xs (olink ys.head? n) = true ∧
         seg ar (olink xs.getLast? p) ys n = true) := by
  induction xs with
  | nil =>
    intro p n ys
    simp [seg_nil, olink_none, List.getLast?_nil]
  | cons x xs ih =>
    intro p n ys
    rw [List.cons_append, seg_cons_iff, seg_cons_iff, olink_getLast_cons]
    constructor
    · rintro ⟨nd, hfind, hprev, hnext, hseg⟩
      rw [ih] at hseg
      rw [olink_head_append] at hnext
      exact ⟨⟨nd, hfind, hprev, hnext, hseg.1⟩, hseg.2⟩
    · rintro ⟨⟨nd, hfind, hprev, hnext, hseg1⟩, hseg2⟩
      refine ⟨nd, hfind, hprev, ?_, ?_⟩
      · rw [olink_head_append]
        exact hnext
      · rw [ih]
        exact ⟨hseg1, hseg2⟩

theorem seg_congr (ar ar' : Arena α) (xs : List Nat)
    (h : ∀ i ∈ xs, ar'.find i = ar.find i) :
    ∀ (p n : Option Nat), seg ar' p xs n = seg ar p xs n := by
  induction xs with
  | nil => intro p n; rfl
  | cons x xs ih =>
    intro p n
    unfold seg
    rw [h x (List.mem_cons_self x xs)]
    cases ar.find x with
    | none => rfl
    | some nd =>
      rw [ih (fun i hi => h i (List.mem_cons_of_mem x hi)) (some x) n]

/-! ### Scan lemmas -/

theorem exists_append_of_getLast (xs : List Nat) (x : Nat) (h : xs.getLast? = some x) :
    ∃ ys, xs = ys ++ [x] := by
  induction xs using List.reverseRecOn with
  | nil => simp at h
  | append_singleton ys y _ =>
    rw [List.getLast?_concat] at h
    exact ⟨ys, by rw [Option.some_inj.mp h]⟩

theorem scanFwd_of_seg (ar : Arena α) (xs : List Nat) :
    ∀ p n, seg ar p xs n = true → scanFwd ar xs.length xs.head? = xs := by
  induction xs with
  | nil => intro p n _; rfl
  | cons x rest ih =>
    intro p n hseg
    rcases (seg_cons_iff ar p n x rest).mp hseg with ⟨nd, hfind, _, hnext, hrest⟩
    show scanFwd ar (rest.length + 1) (some x) = x :: rest
    have hstep : scanFwd ar (rest.length + 1) (some x) =
        x :: scanFwd ar rest.length nd.next := by
      rw [scanFwd, hfind]
    rw [hstep]
    cases rest with
    | nil => rfl
    | cons r rest' =>
      rw [hnext, List.head?_cons, olink_some]
      have := ih (some x) n hrest
      rw [List.head?_cons] at this
      rw [this]

theorem scanBwd_of_seg (ar : Arena α) (xs : List Nat) :
    ∀ p n, seg ar p xs n = true → scanBwd ar xs.length xs.getLast? = xs.reverse := by
  induction xs using List.reverseRecOn with
  | nil => intro p n _; rfl
  | append_singleton ys y ih =>
    intro p n hseg
    rw [seg_append] at hseg
    rcases hseg with ⟨hseg1, hseg2⟩
    rcases (seg_cons_iff ar _ n y []).mp hseg2 with ⟨nd, hfind, hprev, _, _⟩
    rw [List.getLast?_concat, List.length_append, List.reverse_append]
    show scanBwd ar (ys.length + 1) (some y) = [y] ++ ys.reverse
    have hstep : scanBwd ar (ys.length + 1) (some y) =
        y :: scanBwd ar ys.length nd.prev := by
      rw [scanBwd, hfind]
    rw [hstep, hprev]
    cases hys : ys.getLast? with
    | none =>
      have hnil : ys = [] := List.getLast?_eq_none_iff.mp hys
      subst hnil
      rfl
    | some g =>
      rw [olink_some]
      have hlen : ys ≠ [] := by
        intro hnil
        rw [hnil] at hys
        simp at hys
      have := ih p (olink [y].head? n) hseg1
      rw [hys] at this
      rw [this]
      rfl

/-! ### `represents` implies the §3 invariants -/

theorem rep_scanFwd (l : DList α) (ids : List Nat) (h : represents l ids) :
    scanFwd l.arena l.size l.head = ids := by
  rcases h with ⟨h1, h2, _, h4, _⟩
  rw [h1, h2]
  exact scanFwd_of_seg l.arena ids none none h4

theorem rep_scanBwd (l : DList α) (ids : List Nat) (h : represents l ids) :
    scanBwd l.arena l.size l.tail = ids.reverse := by
  rcases h with ⟨h1, _, h3, h4, _⟩
  rw [h1, h3]
  exact scanBwd_of_seg l.arena ids none none h4

theorem rep_invariants (l : DList α) (ids : List Nat) (h : represents l ids) :
    invariantsHold l := by
  have hfwd := rep_scanFwd l ids h
  have hbwd := rep_scanBwd l ids h
  rcases h with ⟨h1, h2, h3, h4, h5, h6, h7⟩
  refine ⟨?_, ?_, ?_, ?_, ?_, ?_, ?_⟩
  · constructor
    · intro hz
      have : ids = [] := List.length_eq_zero.mp (h1 ▸ hz)
      rw [h2, h3, this]
      exact ⟨rfl, rfl⟩
    · rintro ⟨hh, _⟩
      rw [h2] at hh
      rw [h1, List.head?_eq_none_iff.mp hh]
      rfl
  · intro hd nd hhead hfind
    rw [h2] at hhead
    cases ids with
    | nil => simp at hhead
    | cons x rest =>
      rw [List.head?_cons, Option.some_inj] at hhead
      rcases (seg_cons_iff l.arena none none x rest).mp h4 with ⟨nd0, hf0, hp0, _, _⟩
      subst hhead
      rw [hf0, Option.some_inj] at hfind
      rw [hfind] at hp0
      exact hp0
  · intro t nd htail hfind
    rw [h3] at htail
    rcases exists_append_of_getLast ids t htail with ⟨ys, hys⟩
    rw [hys] at h4
    rw [seg_append] at h4
    rcases h4 with ⟨_, hseg2⟩
    rcases (seg_cons_iff l.arena _ none t []).mp hseg2 with ⟨nd0, hf0, _, hn0, _⟩
    rw [hf0, Option.some_inj] at hfind
    rw [hfind] at hn0
    exact hn0
  · intro i hi nd hfind
    rw [hfwd] at hi
    rcases List.append_of_mem hi with ⟨as, bs, hids⟩
    have h4' := h4
    rw [hids, seg_append] at h4'
    rcases h4' with ⟨hsegAs, hsegMid⟩
    rcases (seg_cons_iff l.arena _ none i bs).mp hsegMid with ⟨nd0, hf0, hp0, hn0, hsegBs⟩
    have hnd : nd = nd0 := by
      rw [hf0, Option.some_inj] at hfind
      exact hfind.symm
    constructor
    · intro j hj
      rw [hnd] at hj
      rw [hj] at hn0
      cases bs with
      | nil => simp [olink_none] at hn0
      | cons b bs' =>
        rw [List.head?_cons, olink_some, Option.some_inj] at hn0
        subst hn0
        rcases (seg_cons_iff l.arena (some i) none j bs').mp hsegBs with
          ⟨ndj, hfj, hpj, _, _⟩
        exact ⟨ndj, hfj, hpj⟩
    · intro j hj
      rw [hnd] at hj
      rw [hj] at hp0
      cases has : as.getLast? with
      | none =>
        rw [has, olink_none] at hp0
        exact absurd hp0.symm (by simp)
      | some g =>
        rw [has, olink_some, Option.some_inj] at hp0
        subst hp0
        rcases exists_append_of_getLast as j has with ⟨as', has'⟩
        rw [has', seg_append] at hsegAs
        rcases hsegAs with ⟨_, hsegG⟩
        rcases (seg_cons_iff l.arena _ _ j []).mp hsegG with ⟨ndj, hfj, _, hnj, _⟩
        refine ⟨ndj, hfj, ?_⟩
        rw [hnj]
        rfl
  · rw [hfwd, h1]
  · rw [hbwd, h1, List.length_reverse]
  · intro i
    rw [hfwd, hbwd]
    exact (List.mem_reverse).symm

/-! ### Inversion lemmas for the three mutating operations -/

theorem ins_next_err (l s : DList α) (element : Option Nat) (data : α) (a : Bool)
    (h : dlist_ins_next l element data a = .err s) : s = l := by
  unfold dlist_ins_next at h
  split at h
  · injection h with h1; exact h1.symm
  · split at h
    · injection h with h1; exact h1.symm
    · split at h
      · cases h
      · split at h
        · cases h
        · split at h
          · cases h
          · split at h <;> cases h

theorem ins_prev_err (l s : DList α) (element : Option Nat) (data : α) (a : Bool)
    (h : dlist_ins_prev l element data a = .err s) : s = l := by
  unfold dlist_ins_prev at h
  split at h
  · injection h with h1; exact h1.symm
  · split at h
    · injection h with h1; exact h1.symm
    · split at h
      · cases h
      · split at h
        · cases h
        · split at h
          · cases h
          · split at h <;> cases h

theorem remove_err (l s : DList α) (element : Option Nat)
    (h : dlist_remove l element = .err s) : s = l := by
  unfold dlist_remove at h
  split at h
  · injection h with h1; exact h1.symm
  · split at h
    · injection h with h1; exact h1.symm
    · split at h
      · cases h
      · split at h
        · split at h <;> cases h
        · split at h
          · cases h
          · split at h <;> cases h

theorem ins_next_ok_size (l l' : DList α) (element : Option Nat) (data : α)
    (a : Bool) (u : Unit)
    (h : dlist_ins_next l element data a = .ok l' u) : l'.size = l.size + 1 := by
  unfold dlist_ins_next at h
  split at h
  · cases h
  · split at h
    · cases h
    · split at h
      · injection h with h1 h2; rw [← h1]
      · split at h
        · cases h
        · split at h
          · cases h
          · split at h <;> (injection h with h1 h2; rw [← h1])

theorem ins_prev_ok_size (l l' : DList α) (element : Option Nat) (data : α)
    (a : Bool) (u : Unit)
    (h : dlist_ins_prev l element data a = .ok l' u) : l'.size = l.size + 1 := by
  unfold dlist_ins_prev at h
  split at h
  · cases h
  · split at h
    · cases h
    · split at h
      · injection h with h1 h2; rw [← h1]
      · split at h
        · cases h
        · split at h
          · cases h
          · split at h <;> (injection h with h1 h2; rw [← h1])

theorem remove_ok_size (l l' : DList α) (element : Option Nat) (d : α)
    (h : dlist_remove l element = .ok l' d) : l'.size + 1 = l.size := by
  unfold dlist_remove at h
  split at h
  · cases h
  · rename_i e
    by_cases hsz : l.size = 0
    · rw [if_pos hsz] at h
      cases h
    · rw [if_neg hsz] at h
      have hgoal : ∀ s : DList α, s.size = l.size - 1 → s.size + 1 = l.size := by
        intro s hs
        omega
      split at h
      · cases h
      · split at h
        · split at h <;> (injection h with h1 h2; exact hgoal l' (by rw [← h1]))
        · split at h
          · cases h
          · split at h <;> (injection h with h1 h2; exact hgoal l' (by rw [← h1]))

/-! ### Splice helpers -/

theorem mem_keys_of_find (ar : Arena α) (i : Nat) (nd : Node α)
    (h : ar.find i = some nd) : i ∈ ar.keys := by
  induction ar with
  | nil => cases h
  | cons e ar ih =>
    rw [Arena.find_cons] at h
    by_cases he : e.1 = i
    · exact he ▸ List.mem_cons_self e.1 (Arena.keys ar)
    · rw [if_neg he] at h
      exact List.mem_cons_of_mem e.1 (ih h)

theorem nodup_mid (as bs : List Nat) (e : Nat) (h : (as ++ e :: bs).Nodup) :
    e ∉ as ∧ e ∉ bs ∧ (∀ x ∈ as, x ∉ bs) ∧ as.Nodup ∧ bs.Nodup := by
  rcases List.nodup_append.mp h with ⟨has, hebs, hdisj⟩
  rcases List.nodup_cons.mp hebs with ⟨henb, hbs⟩
  refine ⟨fun hea => hdisj hea (List.mem_cons_self e bs), henb, ?_, has, hbs⟩
  intro x hxas hxbs
  exact hdisj hxas (List.mem_cons_of_mem e hxbs)

theorem nodup_splice (as bs : List Nat) (e f : Nat) (h : (as ++ e :: bs).Nodup)
    (hf : f ∉ as ++ e :: bs) : (as ++ e :: f :: bs).Nodup := by
  rcases List.nodup_append.mp h with ⟨has, hebs, hdisj⟩
  rcases List.nodup_cons.mp hebs with ⟨henb, hbs⟩
  rw [List.mem_append, List.mem_cons] at hf
  push_neg at hf
  rcases hf with ⟨hf1, hf2, hf3⟩
  rw [List.nodup_append]
  refine ⟨has, ?_, ?_⟩
  · rw [List.nodup_cons, List.nodup_cons]
    refine ⟨?_, hf3, hbs⟩
    rw [List.mem_cons]
    rintro (hef | heb)
    · exact hf2 hef.symm
    · exact henb heb
  · intro x hx hmem
    rw [List.mem_cons, List.mem_cons] at hmem
    rcases hmem with hxe | hxf | hxb
    · exact hdisj hx (hxe ▸ List.mem_cons_self e bs)
    · exact hf1 (hxf ▸ hx)
    · exact hdisj hx (List.mem_cons_of_mem e hxb)

theorem nodup_splice_before (as bs : List Nat) (e f : Nat) (h : (as ++ e :: bs).Nodup)
    (hf : f ∉ as ++ e :: bs) : (as ++ f :: e :: bs).Nodup := by
  rcases List.nodup_append.mp h with ⟨has, hebs, hdisj⟩
  rcases List.nodup_cons.mp hebs with ⟨henb, hbs⟩
  rw [List.mem_append, List.mem_cons] at hf
  push_neg at hf
  rcases hf with ⟨hf1, hf2, hf3⟩
  rw [List.nodup_append]
  refine ⟨has, ?_, ?_⟩
  · rw [List.nodup_cons, List.nodup_cons]
    refine ⟨?_, henb, hbs⟩
    rw [List.mem_cons]
    rintro (hfe | hfb)
    · exact hf2 hfe
    · exact hf3 hfb
  · intro x hx hmem
    rw [List.mem_cons, List.mem_cons] at hmem
    rcases hmem with hxf | hxe | hxb
    · exact hf1 (hxf ▸ hx)
    · exact hdisj hx (hxe ▸ List.mem_cons_self e bs)
    · exact hdisj hx (List.mem_cons_of_mem e hxb)

theorem perm_splice_before (as bs : List Nat) (e f : Nat) :
    (f :: (as ++ e :: bs)).Perm (as ++ f :: e :: bs) :=
  List.perm_middle.symm

theorem head?_append_ne_nil (as : List Nat) (h : as ≠ []) (xs ys : List Nat) :
    (as ++ xs).head? = (as ++ ys).head? := by
  cases as with
  | nil => exact absurd rfl h
  | cons a as0 => rfl

theorem perm_splice (as bs : List Nat) (e f : Nat) :
    (f :: (as ++ e :: bs)).Perm (as ++ e :: f :: bs) := by
  have h1 : as ++ e :: f :: bs = (as ++ [e]) ++ f :: bs := by simp
  have h2 : as ++ e :: bs = (as ++ [e]) ++ bs := by simp
  rw [h1, h2]
  exact List.perm_middle.symm

theorem head?_append_cons_any (as : List Nat) (e : Nat) (bs bs2 : List Nat) :
    (as ++ e :: bs).head? = (as ++ e :: bs2).head? := by
  cases as <;> rfl

/-! ### Representation preservation: insertion -/

theorem rep_ins_next_end (l : DList α) (as bs : List Nat) (e : Nat) (nd : Node α)
    (data : α)
    (hrep : represents l (as ++ e :: bs))
    (hfind : l.arena.find e = some nd)
    (hnext : nd.next = none) :
    represents
      { l with tail := some l.fresh,
               arena := (l.arena.alloc l.fresh ⟨data, some e, nd.next⟩).setNext e (some l.fresh),
               fresh := l.fresh + 1, size := l.size + 1 }
      (as ++ e :: l.fresh :: bs) := by
  obtain ⟨h1, h2, h3, h4, h5, h6, h7⟩ := hrep
  have hfresh : ∀ x ∈ as ++ e :: bs, x ≠ l.fresh := fun x hx => Nat.ne_of_lt (h7 x hx)
  have he_mem : e ∈ as ++ e :: bs :=
    List.mem_append.mpr (Or.inr (List.mem_cons_self e bs))
  have hef : e ≠ l.fresh := hfresh e he_mem
  rcases nodup_mid as bs e h5 with ⟨heas, hebs, hdisj, hnas, hnbs⟩
  rw [seg_append] at h4
  rcases h4 with ⟨hsegAs, hsegMid⟩
  rw [List.head?_cons, olink_some] at hsegAs
  rcases (seg_cons_iff _ _ _ _ _).mp hsegMid with ⟨nd0, hf0, hp0, hn0, hsegBs⟩
  have hnd0 : nd0 = nd := by
    rw [hfind] at hf0
    exact (Option.some_inj.mp hf0).symm
  rw [hnd0] at hp0 hn0
  rw [hnext] at hn0
  have hbs : bs = [] := by
    cases bs with
    | nil => rfl
    | cons b bs' =>
      rw [List.head?_cons, olink_some] at hn0
      cases hn0
  subst hbs
  have ffe : ((l.arena.alloc l.fresh ⟨data, some e, nd.next⟩).setNext e (some l.fresh)).find e =
      some { nd with next := some l.fresh } := by
    rw [Arena.find_setNext_self, Arena.find_alloc_ne _ _ _ _ hef, hfind]
    rfl
  have fff : ((l.arena.alloc l.fresh ⟨data, some e, nd.next⟩).setNext e (some l.fresh)).find l.fresh =
      some ⟨data, some e, nd.next⟩ := by
    rw [Arena.find_setNext_ne _ _ _ _ (Ne.symm hef), Arena.find_alloc_self]
  have fcongr : ∀ x, x ≠ e → x ≠ l.fresh →
      ((l.arena.alloc l.fresh ⟨data, some e, nd.next⟩).setNext e (some l.fresh)).find x =
        l.arena.find x := by
    intro x hxe hxf
    rw [Arena.find_setNext_ne _ _ _ _ hxe, Arena.find_alloc_ne _ _ _ _ hxf]
  refine ⟨?_, ?_, ?_, ?_, ?_, ?_, ?_⟩
  · show l.size + 1 = (as ++ e :: l.fresh :: []).length
    rw [h1]
    simp
  · show l.head = (as ++ e :: l.fresh :: []).head?
    rw [h2]
    exact head?_append_cons_any as e [] (l.fresh :: [])
  · show some l.fresh = (as ++ e :: l.fresh :: []).getLast?
    rw [show as ++ e :: l.fresh :: [] = (as ++ [e]) ++ [l.fresh] by simp,
      List.getLast?_concat]
  · show seg _ none (as ++ e :: l.fresh :: []) none = true
    rw [seg_append]
    constructor
    · rw [List.head?_cons, olink_some]
      rw [seg_congr l.arena _ as ?hcongr]
      case hcongr =>
        intro x hx
        exact fcongr x (fun hxe => heas (hxe ▸ hx))
          (hfresh x (List.mem_append.mpr (Or.inl hx)))
      exact hsegAs
    · apply (seg_cons_iff _ _ _ _ _).mpr
      refine ⟨{ nd with next := some l.fresh }, ffe, hp0, rfl, ?_⟩
      apply (seg_cons_iff _ _ _ _ _).mpr
      refine ⟨⟨data, some e, nd.next⟩, fff, rfl, ?_, seg_nil _ _ _⟩
      rw [hnext]
      rfl
  · exact nodup_splice as [] e l.fresh h5 (fun hm => (hfresh l.fresh hm) rfl)
  · show Arena.keys _ |>.Perm _
    rw [Arena.keys_setNext, Arena.keys_alloc]
    exact (h6.cons l.fresh).trans (perm_splice as [] e l.fresh)
  · intro x hx
    rw [List.mem_append, List.mem_cons, List.mem_cons] at hx
    have himp : x ∈ as ++ e :: [] → x < l.fresh + 1 :=
      fun hm => Nat.lt_succ_of_lt (h7 x hm)
    rcases hx with h | h | h | h
    · exact himp (List.mem_append.mpr (Or.inl h))
    · exact himp (List.mem_append.mpr (Or.inr (by rw [h]; exact List.mem_cons_self _ _)))
    · rw [h]; exact Nat.lt_succ_self _
    · cases h

theorem rep_ins_next_mid (l : DList α) (as bs : List Nat) (e j : Nat) (nd : Node α)
    (data : α)
    (hrep : represents l (as ++ e :: bs))
    (hfind : l.arena.find e = some nd)
    (hnext : nd.next = some j) :
    represents
      { l with arena := ((l.arena.alloc l.fresh ⟨data, some e, nd.next⟩).setPrev j
                           (some l.fresh)).setNext e (some l.fresh),
               fresh := l.fresh + 1, size := l.size + 1 }
      (as ++ e :: l.fresh :: bs) := by
  obtain ⟨h1, h2, h3, h4, h5, h6, h7⟩ := hrep
  have hfresh : ∀ x ∈ as ++ e :: bs, x ≠ l.fresh := fun x hx => Nat.ne_of_lt (h7 x hx)
  have he_mem : e ∈ as ++ e :: bs :=
    List.mem_append.mpr (Or.inr (List.mem_cons_self e bs))
  have hef : e ≠ l.fresh := hfresh e he_mem
  rcases nodup_mid as bs e h5 with ⟨heas, hebs, hdisj, hnas, hnbs⟩
  rw [seg_append] at h4
  rcases h4 with ⟨hsegAs, hsegMid⟩
  rw [List.head?_cons, olink_some] at hsegAs
  rcases (seg_cons_iff _ _ _ _ _).mp hsegMid with ⟨nd0, hf0, hp0, hn0, hsegBs⟩
  have hnd0 : nd0 = nd := by
    rw [hfind] at hf0
    exact (Option.some_inj.mp hf0).symm
  rw [hnd0] at hp0 hn0
  rw [hnext] at hn0
  have hbs : ∃ bs', bs = j :: bs' := by
    cases bs with
    | nil => cases hn0
    | cons b bs' =>
      rw [List.head?_cons, olink_some, Option.some_inj] at hn0
      exact ⟨bs', by rw [hn0]⟩
  rcases hbs with ⟨bs', hbs⟩
  subst hbs
  have hj_mem : j ∈ as ++ e :: j :: bs' :=
    List.mem_append.mpr (Or.inr (List.mem_cons_of_mem e (List.mem_cons_self j bs')))
  have hjf : j ≠ l.fresh := hfresh j hj_mem
  have hej : e ≠ j := fun h => hebs (h ▸ List.mem_cons_self j bs')
  rcases (seg_cons_iff _ _ _ _ _).mp hsegBs with ⟨ndj, hfj, hpj, hnj, hsegBs2⟩
  have ffe : (((l.arena.alloc l.fresh ⟨data, some e, nd.next⟩).setPrev j
        (some l.fresh)).setNext e (some l.fresh)).find e =
      some { nd with next := some l.fresh } := by
    rw [Arena.find_setNext_self, Arena.find_setPrev_ne _ _ _ _ hej,
      Arena.find_alloc_ne _ _ _ _ hef, hfind]
    rfl
  have fff : (((l.arena.alloc l.fresh ⟨data, some e, nd.next⟩).setPrev j
        (some l.fresh)).setNext e (some l.fresh)).find l.fresh =
      some ⟨data, some e, nd.next⟩ := by
    rw [Arena.find_setNext_ne _ _ _ _ (Ne.symm hef),
      Arena.find_setPrev_ne _ _ _ _ (Ne.symm hjf), Arena.find_alloc_self]
  have ffj : (((l.arena.alloc l.fresh ⟨data, some e, nd.next⟩).setPrev j
        (some l.fresh)).setNext e (some l.fresh)).find j =
      some { ndj with prev := some l.fresh } := by
    rw [Arena.find_setNext_ne _ _ _ _ (Ne.symm hej), Arena.find_setPrev_self,
      Arena.find_alloc_ne _ _ _ _ hjf, hfj]
    rfl
  have fcongr : ∀ x, x ≠ e → x ≠ j → x ≠ l.fresh →
      (((l.arena.alloc l.fresh ⟨data, some e, nd.next⟩).setPrev j
          (some l.fresh)).setNext e (some l.fresh)).find x = l.arena.find x := by
    intro x hxe hxj hxf
    rw [Arena.find_setNext_ne _ _ _ _ hxe, Arena.find_setPrev_ne _ _ _ _ hxj,
      Arena.find_alloc_ne _ _ _ _ hxf]
  refine ⟨?_, ?_, ?_, ?_, ?_, ?_, ?_⟩
  · show l.size + 1 = (as ++ e :: l.fresh :: j :: bs').length
    rw [h1]
    simp
    omega
  · show l.head = (as ++ e :: l.fresh :: j :: bs').head?
    rw [h2]
    exact head?_append_cons_any as e (j :: bs') (l.fresh :: j :: bs')
  · show l.tail = (as ++ e :: l.fresh :: j :: bs').getLast?
    rw [h3, List.getLast?_append_cons, List.getLast?_append_cons,
      List.getLast?_cons_cons, List.getLast?_cons_cons, List.getLast?_cons_cons]
  · show seg _ none (as ++ e :: l.fresh :: j :: bs') none = true
    rw [seg_append]
    constructor
    · rw [List.head?_cons, olink_some]
      rw [seg_congr l.arena _ as ?hcongr]
      case hcongr =>
        intro x hx
        exact fcongr x (fun hxe => heas (hxe ▸ hx))
          (fun hxj => (hdisj x hx) (hxj ▸ List.mem_cons_self j bs'))
          (hfresh x (List.mem_append.mpr (Or.inl hx)))
      exact hsegAs
    · apply (seg_cons_iff _ _ _ _ _).mpr
      refine ⟨{ nd with next := some l.fresh }, ffe, hp0, rfl, ?_⟩
      apply (seg_cons_iff _ _ _ _ _).mpr
      refine ⟨⟨data, some e, nd.next⟩, fff, rfl, ?_, ?_⟩
      · rw [hnext]
        rfl
      · apply (seg_cons_iff _ _ _ _ _).mpr
        refine ⟨{ ndj with prev := some l.fresh }, ffj, rfl, hnj, ?_⟩
        rw [seg_congr l.arena _ bs' ?hcongr2]
        case hcongr2 =>
          intro x hx
          refine fcongr x ?_ ?_ ?_
          · exact fun hxe => hebs (hxe ▸ List.mem_cons_of_mem j hx)
          · exact fun hxj => (List.nodup_cons.mp hnbs).1 (hxj ▸ hx)
          · exact hfresh x (List.mem_append.mpr
              (Or.inr (List.mem_cons_of_mem e (List.mem_cons_of_mem j hx))))
        exact hsegBs2
  · exact nodup_splice as (j :: bs') e l.fresh h5 (fun hm => (hfresh l.fresh hm) rfl)
  · show Arena.keys _ |>.Perm _
    rw [Arena.keys_setNext, Arena.keys_setPrev, Arena.keys_alloc]
    exact (h6.cons l.fresh).trans (perm_splice as (j :: bs') e l.fresh)
  · intro x hx
    rw [List.mem_append, List.mem_cons, List.mem_cons] at hx
    have himp : x ∈ as ++ e :: j :: bs' → x < l.fresh + 1 :=
      fun hm => Nat.lt_succ_of_lt (h7 x hm)
    rcases hx with h | h | h | h
    · exact himp (List.mem_append.mpr (Or.inl h))
    · exact himp (List.mem_append.mpr (Or.inr (by rw [h]; exact List.mem_cons_self _ _)))
    · rw [h]; exact Nat.lt_succ_self _
    · exact himp (List.mem_append.mpr (Or.inr (List.mem_cons_of_mem e h)))


theorem rep_ins_prev_start (l : DList α) (as bs : List Nat) (e : Nat) (nd : Node α)
    (data : α)
    (hrep : represents l (as ++ e :: bs))
    (hfind : l.arena.find e = some nd)
    (hprev : nd.prev = none) :
    represents
      { l with head := some l.fresh,
               arena := (l.arena.alloc l.fresh ⟨data, nd.prev, some e⟩).setPrev e (some l.fresh),
               fresh := l.fresh + 1, size := l.size + 1 }
      (as ++ l.fresh :: e :: bs) := by
  obtain ⟨h1, h2, h3, h4, h5, h6, h7⟩ := hrep
  have hfresh : ∀ x ∈ as ++ e :: bs, x ≠ l.fresh := fun x hx => Nat.ne_of_lt (h7 x hx)
  have he_mem : e ∈ as ++ e :: bs :=
    List.mem_append.mpr (Or.inr (List.mem_cons_self e bs))
  have hef : e ≠ l.fresh := hfresh e he_mem
  rcases nodup_mid as bs e h5 with ⟨heas, hebs, hdisj, hnas, hnbs⟩
  rw [seg_append] at h4
  rcases h4 with ⟨hsegAs, hsegMid⟩
  rw [List.head?_cons, olink_some] at hsegAs
  rcases (seg_cons_iff _ _ _ _ _).mp hsegMid with ⟨nd0, hf0, hp0, hn0, hsegBs⟩
  have hnd0 : nd0 = nd := by
    rw [hfind] at hf0
    exact (Option.some_inj.mp hf0).symm
  rw [hnd0] at hp0 hn0
  rw [hprev] at hp0
  have has : as = [] := by
    cases hlast : as.getLast? with
    | none => exact List.getLast?_eq_none_iff.mp hlast
    | some g =>
      rw [hlast, olink_some] at hp0
      cases hp0
  subst has
  have ffe : ((l.arena.alloc l.fresh ⟨data, nd.prev, some e⟩).setPrev e (some l.fresh)).find e =
      some { nd with prev := some l.fresh } := by
    rw [Arena.find_setPrev_self, Arena.find_alloc_ne _ _ _ _ hef, hfind]
    rfl
  have fff : ((l.arena.alloc l.fresh ⟨data, nd.prev, some e⟩).setPrev e (some l.fresh)).find l.fresh =
      some ⟨data, nd.prev, some e⟩ := by
    rw [Arena.find_setPrev_ne _ _ _ _ (Ne.symm hef), Arena.find_alloc_self]
  have fcongr : ∀ x, x ≠ e → x ≠ l.fresh →
      ((l.arena.alloc l.fresh ⟨data, nd.prev, some e⟩).setPrev e (some l.fresh)).find x =
        l.arena.find x := by
    intro x hxe hxf
    rw [Arena.find_setPrev_ne _ _ _ _ hxe, Arena.find_alloc_ne _ _ _ _ hxf]
  refine ⟨?_, ?_, ?_, ?_, ?_, ?_, ?_⟩
  · show l.size + 1 = ([] ++ l.fresh :: e :: bs).length
    rw [h1]
    simp
  · show some l.fresh = ([] ++ l.fresh :: e :: bs).head?
    rfl
  · show l.tail = ([] ++ l.fresh :: e :: bs).getLast?
    rw [h3]
    rw [List.nil_append, List.nil_append, List.getLast?_cons_cons]
  · show seg _ none ([] ++ l.fresh :: e :: bs) none = true
    rw [List.nil_append]
    apply (seg_cons_iff _ _ _ _ _).mpr
    refine ⟨⟨data, nd.prev, some e⟩, fff, by rw [hprev], rfl, ?_⟩
    apply (seg_cons_iff _ _ _ _ _).mpr
    refine ⟨{ nd with prev := some l.fresh }, ffe, rfl, hn0, ?_⟩
    rw [seg_congr l.arena _ bs ?hcongr]
    case hcongr =>
      intro x hx
      refine fcongr x ?_ ?_
      · exact fun hxe => hebs (hxe ▸ hx)
      · exact hfresh x (List.mem_append.mpr (Or.inr (List.mem_cons_of_mem e hx)))
    exact hsegBs
  · exact nodup_splice_before [] bs e l.fresh h5 (fun hm => (hfresh l.fresh hm) rfl)
  · show Arena.keys _ |>.Perm _
    rw [Arena.keys_setPrev, Arena.keys_alloc]
    exact (h6.cons l.fresh).trans (perm_splice_before [] bs e l.fresh)
  · intro x hx
    rw [List.nil_append, List.mem_cons, List.mem_cons] at hx
    have himp : x ∈ [] ++ e :: bs → x < l.fresh + 1 :=
      fun hm => Nat.lt_succ_of_lt (h7 x hm)
    rcases hx with h | h | h
    · rw [h]; exact Nat.lt_succ_self _
    · exact himp (by rw [List.nil_append, h]; exact List.mem_cons_self _ _)
    · exact himp (by rw [List.nil_append]; exact List.mem_cons_of_mem e h)

theorem rep_ins_prev_mid (l : DList α) (as bs : List Nat) (e p : Nat) (nd : Node α)
    (data : α)
    (hrep : represents l (as ++ e :: bs))
    (hfind : l.arena.find e = some nd)
    (hprev : nd.prev = some p) :
    represents
      { l with arena := ((l.arena.alloc l.fresh ⟨data, nd.prev, some e⟩).setNext p
                           (some l.fresh)).setPrev e (some l.fresh),
               fresh := l.fresh + 1, size := l.size + 1 }
      (as ++ l.fresh :: e :: bs) := by
  obtain ⟨h1, h2, h3, h4, h5, h6, h7⟩ := hrep
  have hfresh : ∀ x ∈ as ++ e :: bs, x ≠ l.fresh := fun x hx => Nat.ne_of_lt (h7 x hx)
  have he_mem : e ∈ as ++ e :: bs :=
    List.mem_append.mpr (Or.inr (List.mem_cons_self e bs))
  have hef : e ≠ l.fresh := hfresh e he_mem
  rcases nodup_mid as bs e h5 with ⟨heas, hebs, hdisj, hnas, hnbs⟩
  rw [seg_append] at h4
  rcases h4 with ⟨hsegAs, hsegMid⟩
  rw [List.head?_cons, olink_some] at hsegAs
  rcases (seg_cons_iff _ _ _ _ _).mp hsegMid with ⟨nd0, hf0, hp0, hn0, hsegBs⟩
  have hnd0 : nd0 = nd := by
    rw [hfind] at hf0
    exact (Option.some_inj.mp hf0).symm
  rw [hnd0] at hp0 hn0
  rw [hprev] at hp0
  have has : ∃ as0, as = as0 ++ [p] := by
    cases hlast : as.getLast? with
    | none =>
      rw [hlast, olink_none] at hp0
      cases hp0
    | some g =>
      rw [hlast, olink_some, Option.some_inj] at hp0
      rcases exists_append_of_getLast as g hlast with ⟨ys, hys⟩
      exact ⟨ys, by rw [hys, hp0]⟩
  rcases has with ⟨as0, has⟩
  subst has
  have hp_mem : p ∈ as0 ++ [p] :=
    List.mem_append.mpr (Or.inr (List.mem_cons_self p []))
  have hpf : p ≠ l.fresh := hfresh p (List.mem_append.mpr (Or.inl hp_mem))
  have hep : e ≠ p :=
    fun h => heas (by rw [h]; exact List.mem_append.mpr (Or.inr (List.mem_cons_self p [])))
  rcases List.nodup_append.mp hnas with ⟨hnas0, _, hdisj0⟩
  rw [seg_append] at hsegAs
  rcases hsegAs with ⟨hsegAs0, hsegP⟩
  rw [List.head?_cons, olink_some] at hsegAs0
  rcases (seg_cons_iff _ _ _ _ _).mp hsegP with ⟨ndp, hfp, hpp, hnp, _⟩
  have hnp2 : ndp.next = some e := hnp
  have ffp : (((l.arena.alloc l.fresh ⟨data, nd.prev, some e⟩).setNext p
        (some l.fresh)).setPrev e (some l.fresh)).find p =
      some { ndp with next := some l.fresh } := by
    rw [Arena.find_setPrev_ne _ _ _ _ (Ne.symm hep), Arena.find_setNext_self,
      Arena.find_alloc_ne _ _ _ _ hpf, hfp]
    rfl
  have ffe : (((l.arena.alloc l.fresh ⟨data, nd.prev, some e⟩).setNext p
        (some l.fresh)).setPrev e (some l.fresh)).find e =
      some { nd with prev := some l.fresh } := by
    rw [Arena.find_setPrev_self, Arena.find_setNext_ne _ _ _ _ hep,
      Arena.find_alloc_ne _ _ _ _ hef, hfind]
    rfl
  have fff : (((l.arena.alloc l.fresh ⟨data, nd.prev, some e⟩).setNext p
        (some l.fresh)).setPrev e (some l.fresh)).find l.fresh =
      some ⟨data, nd.prev, some e⟩ := by
    rw [Arena.find_setPrev_ne _ _ _ _ (Ne.symm hef),
      Arena.find_setNext_ne _ _ _ _ (Ne.symm hpf), Arena.find_alloc_self]
  have fcongr : ∀ x, x ≠ e → x ≠ p → x ≠ l.fresh →
      (((l.arena.alloc l.fresh ⟨data, nd.prev, some e⟩).setNext p
          (some l.fresh)).setPrev e (some l.fresh)).find x = l.arena.find x := by
    intro x hxe hxp hxf
    rw [Arena.find_setPrev_ne _ _ _ _ hxe, Arena.find_setNext_ne _ _ _ _ hxp,
      Arena.find_alloc_ne _ _ _ _ hxf]
  refine ⟨?_, ?_, ?_, ?_, ?_, ?_, ?_⟩
  · show l.size + 1 = ((as0 ++ [p]) ++ l.fresh :: e :: bs).length
    rw [h1]
    simp
    omega
  · show l.head = ((as0 ++ [p]) ++ l.fresh :: e :: bs).head?
    rw [h2]
    exact head?_append_ne_nil (as0 ++ [p]) (by simp) (e :: bs) (l.fresh :: e :: bs)
  · show l.tail = ((as0 ++ [p]) ++ l.fresh :: e :: bs).getLast?
    rw [h3, List.getLast?_append_cons, List.getLast?_append_cons,
      List.getLast?_cons_cons]
  · show seg _ none ((as0 ++ [p]) ++ l.fresh :: e :: bs) none = true
    rw [show (as0 ++ [p]) ++ l.fresh :: e :: bs = as0 ++ p :: l.fresh :: e :: bs by simp]
    rw [seg_append]
    constructor
    · rw [List.head?_cons, olink_some]
      rw [seg_congr l.arena _ as0 ?hcongr]
      case hcongr =>
        intro x hx
        refine fcongr x ?_ ?_ ?_
        · exact fun hxe => heas (hxe ▸ List.mem_append.mpr (Or.inl hx))
        · exact fun hxp => (hdisj0 hx) (hxp ▸ List.mem_cons_self p [])
        · exact hfresh x (List.mem_append.mpr (Or.inl (List.mem_append.mpr (Or.inl hx))))
      exact hsegAs0
    · apply (seg_cons_iff _ _ _ _ _).mpr
      refine ⟨{ ndp with next := some l.fresh }, ffp, hpp, rfl, ?_⟩
      apply (seg_cons_iff _ _ _ _ _).mpr
      refine ⟨⟨data, nd.prev, some e⟩, fff, by rw [hprev], rfl, ?_⟩
      apply (seg_cons_iff _ _ _ _ _).mpr
      refine ⟨{ nd with prev := some l.fresh }, ffe, rfl, hn0, ?_⟩
      rw [seg_congr l.arena _ bs ?hcongr2]
      case hcongr2 =>
        intro x hx
        refine fcongr x ?_ ?_ ?_
        · exact fun hxe => hebs (hxe ▸ hx)
        · exact fun hxp => (hdisj p hp_mem) (hxp ▸ hx)
        · exact hfresh x (List.mem_append.mpr (Or.inr (List.mem_cons_of_mem e hx)))
      exact hsegBs
  · exact nodup_splice_before (as0 ++ [p]) bs e l.fresh h5
      (fun hm => (hfresh l.fresh hm) rfl)
  · show Arena.keys _ |>.Perm _
    rw [Arena.keys_setPrev, Arena.keys_setNext, Arena.keys_alloc]
    exact (h6.cons l.fresh).trans (perm_splice_before (as0 ++ [p]) bs e l.fresh)
  · intro x hx
    rw [List.mem_append, List.mem_cons, List.mem_cons] at hx
    have himp : x ∈ (as0 ++ [p]) ++ e :: bs → x < l.fresh + 1 :=
      fun hm => Nat.lt_succ_of_lt (h7 x hm)
    rcases hx with h | h | h | h
    · exact himp (List.mem_append.mpr (Or.inl h))
    · rw [h]; exact Nat.lt_succ_self _
    · exact himp (List.mem_append.mpr (Or.inr (by rw [h]; exact List.mem_cons_self _ _)))
    · exact himp (List.mem_append.mpr (Or.inr (List.mem_cons_of_mem e h)))


theorem rep_ins_empty (l : DList α) (data : α) (hrep : represents l []) :
    represents
      { l with head := some l.fresh, tail := some l.fresh,
               arena := l.arena.alloc l.fresh ⟨data, none, none⟩,
               fresh := l.fresh + 1, size := l.size + 1 }
      [l.fresh] := by
  obtain ⟨h1, h2, h3, h4, h5, h6, h7⟩ := hrep
  have hkeys : l.arena.keys = [] := h6.eq_nil
  refine ⟨?_, rfl, rfl, ?_, ?_, ?_, ?_⟩
  · show l.size + 1 = 1
    rw [h1]
    rfl
  · show seg _ none [l.fresh] none = true
    apply (seg_cons_iff _ _ _ _ _).mpr
    exact ⟨⟨data, none, none⟩, Arena.find_alloc_self _ _ _, rfl, rfl, seg_nil _ _ _⟩
  · simp
  · show Arena.keys _ |>.Perm _
    rw [Arena.keys_alloc, hkeys]
  · intro x hx
    rw [List.mem_singleton] at hx
    rw [hx]
    exact Nat.lt_succ_self _

theorem ins_next_ok_rep (l l' : DList α) (ids : List Nat) (element : Option Nat)
    (data : α) (a : Bool) (u : Unit) (hrep : represents l ids)
    (hok : dlist_ins_next l element data a = .ok l' u) :
    ∃ ids', represents l' ids' := by
  unfold dlist_ins_next at hok
  split at hok
  · cases hok
  · split at hok
    · cases hok
    · split at hok
      · rename_i hsz
        injection hok with hl _
        have hids : ids = [] := by
          rcases hrep with ⟨h1, _⟩
          exact List.length_eq_zero.mp (h1 ▸ hsz)
        refine ⟨[l.fresh], ?_⟩
        rw [← hl]
        exact rep_ins_empty l data (hids ▸ hrep)
      · split at hok
        · cases hok
        · rename_i e heq
          split at hok
          · cases hok
          · rename_i nd hfind
            have he : e ∈ ids := by
              have hk := mem_keys_of_find l.arena e nd hfind
              rcases hrep with ⟨_, _, _, _, _, h6, _⟩
              exact h6.mem_iff.mp hk
            rcases List.append_of_mem he with ⟨as, bs, hids⟩
            subst hids
            split at hok
            · rename_i hnext
              injection hok with hl _
              exact ⟨as ++ e :: l.fresh :: bs,
                by rw [← hl]; exact rep_ins_next_end l as bs e nd data hrep hfind hnext⟩
            · rename_i j hnext
              injection hok with hl _
              exact ⟨as ++ e :: l.fresh :: bs,
                by rw [← hl]; exact rep_ins_next_mid l as bs e j nd data hrep hfind hnext⟩

theorem ins_prev_ok_rep (l l' : DList α) (ids : List Nat) (element : Option Nat)
    (data : α) (a : Bool) (u : Unit) (hrep : represents l ids)
    (hok : dlist_ins_prev l element data a = .ok l' u) :
    ∃ ids', represents l' ids' := by
  unfold dlist_ins_prev at hok
  split at hok
  · cases hok
  · split at hok
    · cases hok
    · split at hok
      · rename_i hsz
        injection hok with hl _
        have hids : ids = [] := by
          rcases hrep with ⟨h1, _⟩
          exact List.length_eq_zero.mp (h1 ▸ hsz)
        refine ⟨[l.fresh], ?_⟩
        rw [← hl]
        exact rep_ins_empty l data (hids ▸ hrep)
      · split at hok
        · cases hok
        · rename_i e heq
          split at hok
          · cases hok
          · rename_i nd hfind
            have he : e ∈ ids := by
              have hk := mem_keys_of_find l.arena e nd hfind
              rcases hrep with ⟨_, _, _, _, _, h6, _⟩
              exact h6.mem_iff.mp hk
            rcases List.append_of_mem he with ⟨as, bs, hids⟩
            subst hids
            split at hok
            · rename_i hprev
              injection hok with hl _
              exact ⟨as ++ l.fresh :: e :: bs,
                by rw [← hl]; exact rep_ins_prev_start l as bs e nd data hrep hfind hprev⟩
            · rename_i q hprev
              injection hok with hl _
              exact ⟨as ++ l.fresh :: e :: bs,
                by rw [← hl]; exact rep_ins_prev_mid l as bs e q nd data hrep hfind hprev⟩


/-! ### Removal helpers -/

theorem filter_ne_of_not_mem (xs : List Nat) (e : Nat) (h : e ∉ xs) :
    (xs.filter fun x => x ≠ e) = xs := by
  rw [List.filter_eq_self]
  intro x hx
  have hne : x ≠ e := fun hxe => h (hxe ▸ hx)
  exact decide_eq_true hne

theorem filter_ne_cons_self (xs : List Nat) (e : Nat) :
    ((e :: xs).filter fun x => x ≠ e) = xs.filter fun x => x ≠ e := by
  rw [List.filter_cons]
  simp

theorem find_setPrev_data (ar : Arena α) (i : Nat) (v : Option Nat) (x : Nat) :
    ((ar.setPrev i v).find x).map Node.data = (ar.find x).map Node.data := by
  by_cases h : x = i
  · subst h
    rw [Arena.find_setPrev_self]
    cases ar.find x <;> rfl
  · rw [Arena.find_setPrev_ne _ _ _ _ h]

theorem find_setNext_data (ar : Arena α) (i : Nat) (v : Option Nat) (x : Nat) :
    ((ar.setNext i v).find x).map Node.data = (ar.find x).map Node.data := by
  by_cases h : x = i
  · subst h
    rw [Arena.find_setNext_self]
    cases ar.find x <;> rfl
  · rw [Arena.find_setNext_ne _ _ _ _ h]


/-! ### Representation preservation: removal -/

theorem rep_remove_head_end (l : DList α) (as bs : List Nat) (e : Nat) (nd : Node α)
    (hrep : represents l (as ++ e :: bs))
    (hfind : l.arena.find e = some nd)
    (hhead : l.head = some e)
    (hnext : nd.next = none) :
    represents
      { l with head := none, tail := none, arena := l.arena.erase e,
               size := l.size - 1 }
      (as ++ bs) := by
  obtain ⟨h1, h2, h3, h4, h5, h6, h7⟩ := hrep
  rcases nodup_mid as bs e h5 with ⟨heas, hebs, hdisj, hnas, hnbs⟩
  have has : as = [] := by
    cases as with
    | nil => rfl
    | cons a as0 =>
      rw [hhead, List.cons_append, List.head?_cons] at h2
      have hea : e = a := Option.some_inj.mp h2
      exact absurd (hea ▸ List.mem_cons_self a as0) heas
  subst has
  rw [List.nil_append] at h4
  rcases (seg_cons_iff _ _ _ _ _).mp h4 with ⟨nd0, hf0, hp0, hn0, hsegBs⟩
  have hnd0 : nd0 = nd := by
    rw [hfind] at hf0
    exact (Option.some_inj.mp hf0).symm
  rw [hnd0] at hp0 hn0
  rw [hnext] at hn0
  have hbs : bs = [] := by
    cases bs with
    | nil => rfl
    | cons b bs' =>
      rw [List.head?_cons, olink_some] at hn0
      cases hn0
  subst hbs
  refine ⟨?_, rfl, rfl, ?_, ?_, ?_, ?_⟩
  · show l.size - 1 = ([] ++ ([] : List Nat)).length
    rw [h1]
    rfl
  · show seg _ none ([] ++ ([] : List Nat)) none = true
    rfl
  · simp
  · show Arena.keys _ |>.Perm ([] ++ ([] : List Nat))
    rw [Arena.keys_erase]
    refine (h6.filter fun x => x ≠ e).trans ?_
    rw [List.nil_append, filter_ne_cons_self]
    rfl
  · intro x hx
    rw [List.nil_append] at hx
    cases hx

theorem rep_remove_head_mid (l : DList α) (as bs : List Nat) (e j : Nat) (nd : Node α)
    (hrep : represents l (as ++ e :: bs))
    (hfind : l.arena.find e = some nd)
    (hhead : l.head = some e)
    (hnext : nd.next = some j) :
    represents
      { l with head := some j, arena := (l.arena.setPrev j none).erase e,
               size := l.size - 1 }
      (as ++ bs) := by
  obtain ⟨h1, h2, h3, h4, h5, h6, h7⟩ := hrep
  rcases nodup_mid as bs e h5 with ⟨heas, hebs, hdisj, hnas, hnbs⟩
  have has : as = [] := by
    cases as with
    | nil => rfl
    | cons a as0 =>
      rw [hhead, List.cons_append, List.head?_cons] at h2
      have hea : e = a := Option.some_inj.mp h2
      exact absurd (hea ▸ List.mem_cons_self a as0) heas
  subst has
  rw [List.nil_append] at h4
  rcases (seg_cons_iff _ _ _ _ _).mp h4 with ⟨nd0, hf0, hp0, hn0, hsegBs⟩
  have hnd0 : nd0 = nd := by
    rw [hfind] at hf0
    exact (Option.some_inj.mp hf0).symm
  rw [hnd0] at hp0 hn0
  rw [hnext] at hn0
  have hbs : ∃ bs', bs = j :: bs' := by
    cases bs with
    | nil => cases hn0
    | cons b bs' =>
      rw [List.head?_cons, olink_some, Option.some_inj] at hn0
      exact ⟨bs', by rw [hn0]⟩
  rcases hbs with ⟨bs', hbs⟩
  subst hbs
  have hej : e ≠ j := fun h => hebs (h ▸ List.mem_cons_self j bs')
  have hjb : j ∉ bs' := (List.nodup_cons.mp hnbs).1
  rcases (seg_cons_iff _ _ _ _ _).mp hsegBs with ⟨ndj, hfj, hpj, hnj, hsegBs2⟩
  have ffj : ((l.arena.setPrev j none).erase e).find j =
      some { ndj with prev := none } := by
    rw [Arena.find_erase_ne _ _ _ (Ne.symm hej), Arena.find_setPrev_self, hfj]
    rfl
  have fcongr : ∀ x, x ≠ e → x ≠ j →
      ((l.arena.setPrev j none).erase e).find x = l.arena.find x := by
    intro x hxe hxj
    rw [Arena.find_erase_ne _ _ _ hxe, Arena.find_setPrev_ne _ _ _ _ hxj]
  refine ⟨?_, rfl, ?_, ?_, ?_, ?_, ?_⟩
  · show l.size - 1 = ([] ++ j :: bs').length
    rw [h1]
    simp
  · show l.tail = ([] ++ j :: bs').getLast?
    rw [h3, List.nil_append, List.nil_append, List.getLast?_cons_cons]
  · show seg _ none ([] ++ j :: bs') none = true
    rw [List.nil_append]
    apply (seg_cons_iff _ _ _ _ _).mpr
    refine ⟨{ ndj with prev := none }, ffj, rfl, hnj, ?_⟩
    rw [seg_congr l.arena _ bs' ?hcongr]
    case hcongr =>
      intro x hx
      refine fcongr x ?_ ?_
      · exact fun hxe => hebs (hxe ▸ List.mem_cons_of_mem j hx)
      · exact fun hxj => hjb (hxj ▸ hx)
    exact hsegBs2
  · show ([] ++ j :: bs').Nodup
    exact hnbs
  · show Arena.keys _ |>.Perm ([] ++ j :: bs')
    rw [Arena.keys_erase, Arena.keys_setPrev]
    refine (h6.filter fun x => x ≠ e).trans ?_
    rw [List.nil_append, filter_ne_cons_self, filter_ne_of_not_mem _ _ hebs]
    rfl
  · intro x hx
    rw [List.nil_append] at hx
    exact h7 x (List.mem_append.mpr (Or.inr (List.mem_cons_of_mem e hx)))


theorem rep_remove_mid_end (l : DList α) (as bs : List Nat) (e p : Nat) (nd : Node α)
    (hrep : represents l (as ++ e :: bs))
    (hfind : l.arena.find e = some nd)
    (hprev : nd.prev = some p)
    (hnext : nd.next = none) :
    represents
      { l with tail := some p, arena := (l.arena.setNext p nd.next).erase e,
               size := l.size - 1 }
      (as ++ bs) := by
  obtain ⟨h1, h2, h3, h4, h5, h6, h7⟩ := hrep
  rcases nodup_mid as bs e h5 with ⟨heas, hebs, hdisj, hnas, hnbs⟩
  rw [seg_append] at h4
  rcases h4 with ⟨hsegAs, hsegMid⟩
  rw [List.head?_cons, olink_some] at hsegAs
  rcases (seg_cons_iff _ _ _ _ _).mp hsegMid with ⟨nd0, hf0, hp0, hn0, hsegBs⟩
  have hnd0 : nd0 = nd := by
    rw [hfind] at hf0
    exact (Option.some_inj.mp hf0).symm
  rw [hnd0] at hp0 hn0
  rw [hprev] at hp0
  rw [hnext] at hn0
  have hbs : bs = [] := by
    cases bs with
    | nil => rfl
    | cons b bs' =>
      rw [List.head?_cons, olink_some] at hn0
      cases hn0
  subst hbs
  have has : ∃ as0, as = as0 ++ [p] := by
    cases hlast : as.getLast? with
    | none =>
      rw [hlast, olink_none] at hp0
      cases hp0
    | some g =>
      rw [hlast, olink_some, Option.some_inj] at hp0
      rcases exists_append_of_getLast as g hlast with ⟨ys, hys⟩
      exact ⟨ys, by rw [hys, hp0]⟩
  rcases has with ⟨as0, has⟩
  subst has
  have hp_mem : p ∈ as0 ++ [p] :=
    List.mem_append.mpr (Or.inr (List.mem_cons_self p []))
  have hep : e ≠ p :=
    fun h => heas (by rw [h]; exact hp_mem)
  rcases List.nodup_append.mp hnas with ⟨hnas0, _, hdisj0⟩
  rw [seg_append] at hsegAs
  rcases hsegAs with ⟨hsegAs0, hsegP⟩
  rw [List.head?_cons, olink_some] at hsegAs0
  rcases (seg_cons_iff _ _ _ _ _).mp hsegP with ⟨ndp, hfp, hpp, hnp, _⟩
  have ffp : ((l.arena.setNext p nd.next).erase e).find p =
      some { ndp with next := nd.next } := by
    rw [Arena.find_erase_ne _ _ _ (Ne.symm hep), Arena.find_setNext_self, hfp]
    rfl
  have fcongr : ∀ x, x ≠ e → x ≠ p →
      ((l.arena.setNext p nd.next).erase e).find x = l.arena.find x := by
    intro x hxe hxp
    rw [Arena.find_erase_ne _ _ _ hxe, Arena.find_setNext_ne _ _ _ _ hxp]
  refine ⟨?_, ?_, ?_, ?_, ?_, ?_, ?_⟩
  · show l.size - 1 = ((as0 ++ [p]) ++ ([] : List Nat)).length
    rw [h1]
    simp
  · show l.head = ((as0 ++ [p]) ++ ([] : List Nat)).head?
    rw [h2]
    exact head?_append_ne_nil (as0 ++ [p]) (by simp) (e :: []) []
  · show some p = ((as0 ++ [p]) ++ ([] : List Nat)).getLast?
    rw [List.append_nil, List.getLast?_concat]
  · show seg _ none ((as0 ++ [p]) ++ ([] : List Nat)) none = true
    rw [List.append_nil, seg_append]
    constructor
    · rw [List.head?_cons, olink_some]
      rw [seg_congr l.arena _ as0 ?hcongr]
      case hcongr =>
        intro x hx
        refine fcongr x ?_ ?_
        · exact fun hxe => heas (hxe ▸ List.mem_append.mpr (Or.inl hx))
        · exact fun hxp => (hdisj0 hx) (hxp ▸ List.mem_cons_self p [])
      exact hsegAs0
    · apply (seg_cons_iff _ _ _ _ _).mpr
      refine ⟨{ ndp with next := nd.next }, ffp, hpp, ?_, seg_nil _ _ _⟩
      show nd.next = olink ([] : List Nat).head? none
      rw [hnext]
      rfl
  · show ((as0 ++ [p]) ++ ([] : List Nat)).Nodup
    rw [List.append_nil]
    exact hnas
  · show Arena.keys _ |>.Perm ((as0 ++ [p]) ++ ([] : List Nat))
    rw [Arena.keys_erase, Arena.keys_setNext]
    refine (h6.filter fun x => x ≠ e).trans ?_
    rw [List.filter_append, filter_ne_of_not_mem _ _ heas, filter_ne_cons_self]
    rfl
  · intro x hx
    rw [List.append_nil] at hx
    exact h7 x (List.mem_append.mpr (Or.inl hx))

theorem rep_remove_mid_mid (l : DList α) (as bs : List Nat) (e p j : Nat) (nd : Node α)
    (hrep : represents l (as ++ e :: bs))
    (hfind : l.arena.find e = some nd)
    (hprev : nd.prev = some p)
    (hnext : nd.next = some j) :
    represents
      { l with arena := ((l.arena.setNext p nd.next).setPrev j (some p)).erase e,
               size := l.size - 1 }
      (as ++ bs) := by
  obtain ⟨h1, h2, h3, h4, h5, h6, h7⟩ := hrep
  rcases nodup_mid as bs e h5 with ⟨heas, hebs, hdisj, hnas, hnbs⟩
  rw [seg_append] at h4
  rcases h4 with ⟨hsegAs, hsegMid⟩
  rw [List.head?_cons, olink_some] at hsegAs
  rcases (seg_cons_iff _ _ _ _ _).mp hsegMid with ⟨nd0, hf0, hp0, hn0, hsegBs⟩
  have hnd0 : nd0 = nd := by
    rw [hfind] at hf0
    exact (Option.some_inj.mp hf0).symm
  rw [hnd0] at hp0 hn0
  rw [hprev] at hp0
  rw [hnext] at hn0
  have hbs : ∃ bs', bs = j :: bs' := by
    cases bs with
    | nil => cases hn0
    | cons b bs' =>
      rw [List.head?_cons, olink_some, Option.some_inj] at hn0
      exact ⟨bs', by rw [hn0]⟩
  rcases hbs with ⟨bs', hbs⟩
  subst hbs
  have has : ∃ as0, as = as0 ++ [p] := by
    cases hlast : as.getLast? with
    | none =>
      rw [hlast, olink_none] at hp0
      cases hp0
    | some g =>
      rw [hlast, olink_some, Option.some_inj] at hp0
      rcases exists_append_of_getLast as g hlast with ⟨ys, hys⟩
      exact ⟨ys, by rw [hys, hp0]⟩
  rcases has with ⟨as0, has⟩
  subst has
  have hp_mem : p ∈ as0 ++ [p] :=
    List.mem_append.mpr (Or.inr (List.mem_cons_self p []))
  have hep : e ≠ p :=
    fun h => heas (by rw [h]; exact hp_mem)
  have hej : e ≠ j := fun h => hebs (h ▸ List.mem_cons_self j bs')
  have hpj : p ≠ j :=
    fun h => (hdisj p hp_mem) (h ▸ List.mem_cons_self j bs')
  have hjb : j ∉ bs' := (List.nodup_cons.mp hnbs).1
  rcases List.nodup_append.mp hnas with ⟨hnas0, _, hdisj0⟩
  rw [seg_append] at hsegAs
  rcases hsegAs with ⟨hsegAs0, hsegP⟩
  rw [List.head?_cons, olink_some] at hsegAs0
  rcases (seg_cons_iff _ _ _ _ _).mp hsegP with ⟨ndp, hfp, hpp, hnp, _⟩
  rcases (seg_cons_iff _ _ _ _ _).mp hsegBs with ⟨ndj, hfj, hpjj, hnj, hsegBs2⟩
  have ffp : (((l.arena.setNext p nd.next).setPrev j (some p)).erase e).find p =
      some { ndp with next := nd.next } := by
    rw [Arena.find_erase_ne _ _ _ (Ne.symm hep), Arena.find_setPrev_ne _ _ _ _ hpj,
      Arena.find_setNext_self, hfp]
    rfl
  have ffj : (((l.arena.setNext p nd.next).setPrev j (some p)).erase e).find j =
      some { ndj with prev := some p } := by
    rw [Arena.find_erase_ne _ _ _ (Ne.symm hej), Arena.find_setPrev_self,
      Arena.find_setNext_ne _ _ _ _ (Ne.symm hpj), hfj]
    rfl
  have fcongr : ∀ x, x ≠ e → x ≠ p → x ≠ j →
      (((l.arena.setNext p nd.next).setPrev j (some p)).erase e).find x =
        l.arena.find x := by
    intro x hxe hxp hxj
    rw [Arena.find_erase_ne _ _ _ hxe, Arena.find_setPrev_ne _ _ _ _ hxj,
      Arena.find_setNext_ne _ _ _ _ hxp]
  refine ⟨?_, ?_, ?_, ?_, ?_, ?_, ?_⟩
  · show l.size - 1 = ((as0 ++ [p]) ++ j :: bs').length
    rw [h1]
    simp
  · show l.head = ((as0 ++ [p]) ++ j :: bs').head?
    rw [h2]
    exact head?_append_ne_nil (as0 ++ [p]) (by simp) (e :: j :: bs') (j :: bs')
  · show l.tail = ((as0 ++ [p]) ++ j :: bs').getLast?
    rw [h3, List.getLast?_append_cons, List.getLast?_append_cons,
      List.getLast?_cons_cons]
  · show seg _ none ((as0 ++ [p]) ++ j :: bs') none = true
    rw [show (as0 ++ [p]) ++ j :: bs' = as0 ++ p :: j :: bs' by simp]
    rw [seg_append]
    constructor
    · rw [List.head?_cons, olink_some]
      rw [seg_congr l.arena _ as0 ?hcongr]
      case hcongr =>
        intro x hx
        refine fcongr x ?_ ?_ ?_
        · exact fun hxe => heas (hxe ▸ List.mem_append.mpr (Or.inl hx))
        · exact fun hxp => (hdisj0 hx) (hxp ▸ List.mem_cons_self p [])
        · exact fun hxj => (hdisj x (List.mem_append.mpr (Or.inl hx)))
            (hxj ▸ List.mem_cons_self j bs')
      exact hsegAs0
    · apply (seg_cons_iff _ _ _ _ _).mpr
      refine ⟨{ ndp with next := nd.next }, ffp, hpp, ?_, ?_⟩
      · show nd.next = olink (j :: bs').head? none
        rw [hnext, List.head?_cons, olink_some]
      · apply (seg_cons_iff _ _ _ _ _).mpr
        refine ⟨{ ndj with prev := some p }, ffj, rfl, hnj, ?_⟩
        rw [seg_congr l.arena _ bs' ?hcongr2]
        case hcongr2 =>
          intro x hx
          refine fcongr x ?_ ?_ ?_
          · exact fun hxe => hebs (hxe ▸ List.mem_cons_of_mem j hx)
          · exact fun hxp => (hdisj p hp_mem) (hxp ▸ List.mem_cons_of_mem j hx)
          · exact fun hxj => hjb (hxj ▸ hx)
        exact hsegBs2
  · show ((as0 ++ [p]) ++ j :: bs').Nodup
    exact List.Nodup.sublist
      (List.Sublist.append_left (List.sublist_cons_self e (j :: bs')) (as0 ++ [p])) h5
  · show Arena.keys _ |>.Perm ((as0 ++ [p]) ++ j :: bs')
    rw [Arena.keys_erase, Arena.keys_setPrev, Arena.keys_setNext]
    refine (h6.filter fun x => x ≠ e).trans ?_
    rw [List.filter_append, filter_ne_of_not_mem _ _ heas, filter_ne_cons_self,
      filter_ne_of_not_mem _ _ hebs]
  · intro x hx
    rcases List.mem_append.mp hx with h | h
    · exact h7 x (List.mem_append.mpr (Or.inl h))
    · exact h7 x (List.mem_append.mpr (Or.inr (List.mem_cons_of_mem e h)))


/-- Forward specification of `dlist_remove` on a member of a well-formed
list: it succeeds, returns the stored payload, preserves the callback
configuration and the payloads of all other nodes, and the list now
represents the id sequence with `e` deleted. -/
theorem remove_ok_spec (l : DList α) (as bs : List Nat) (e : Nat)
    (hrep : represents l (as ++ e :: bs)) :
    ∃ l' nd, l.arena.find e = some nd ∧
      dlist_remove l (some e) = .ok l' nd.data ∧
      represents l' (as ++ bs) ∧
      l'.hasDestroy = l.hasDestroy ∧ l'.hasMatch = l.hasMatch ∧
      l'.fresh = l.fresh ∧
      ∀ x, x ≠ e → (l'.arena.find x).map Node.data = (l.arena.find x).map Node.data := by
  have he : e ∈ as ++ e :: bs := List.mem_append.mpr (Or.inr (List.mem_cons_self e bs))
  have hkey : e ∈ l.arena.keys := by
    rcases hrep with ⟨_, _, _, _, _, h6, _⟩
    exact h6.mem_iff.mpr he
  obtain ⟨nd, hfind⟩ := Arena.find_isSome_of_mem_keys l.arena e hkey
  have hsz : ¬ l.size = 0 := by
    rcases hrep with ⟨h1, _⟩
    rw [h1]
    simp
  by_cases hhead : l.head = some e
  · cases hnext : nd.next with
    | none =>
      refine ⟨_, nd, hfind, ?_,
        rep_remove_head_end l as bs e nd hrep hfind hhead hnext, rfl, rfl, rfl, ?_⟩
      · unfold dlist_remove
        dsimp only
        rw [if_neg hsz, hfind]
        dsimp only
        rw [if_pos hhead, hnext]
      · intro x hx
        rw [Arena.find_erase_ne l.arena e x hx]
    | some j =>
      refine ⟨_, nd, hfind, ?_,
        rep_remove_head_mid l as bs e j nd hrep hfind hhead hnext, rfl, rfl, rfl, ?_⟩
      · unfold dlist_remove
        dsimp only
        rw [if_neg hsz, hfind]
        dsimp only
        rw [if_pos hhead, hnext]
      · intro x hx
        rw [Arena.find_erase_ne _ e x hx]
        exact find_setPrev_data l.arena j none x
  · have hprev : ∃ p, nd.prev = some p := by
      rcases hrep with ⟨h1, h2, h3, h4, h5, h6, h7⟩
      rcases nodup_mid as bs e h5 with ⟨heas, _, _, _, _⟩
      rw [seg_append] at h4
      rcases h4 with ⟨_, hsegMid⟩
      rcases (seg_cons_iff _ _ _ _ _).mp hsegMid with ⟨nd0, hf0, hp0, _, _⟩
      have hnd0 : nd0 = nd := by
        rw [hfind] at hf0
        exact (Option.some_inj.mp hf0).symm
      rw [hnd0] at hp0
      cases as with
      | nil =>
        rw [List.nil_append, List.head?_cons] at h2
        exact absurd h2 hhead
      | cons a as0 =>
        have hsome : ((a :: as0).getLast?).isSome := by
          rw [List.getLast?_isSome]
          exact List.cons_ne_nil a as0
        rcases Option.isSome_iff_exists.mp hsome with ⟨g, hg⟩
        rw [hg, olink_some] at hp0
        exact ⟨g, hp0⟩
    rcases hprev with ⟨p, hprev⟩
    cases hnext : nd.next with
    | none =>
      refine ⟨_, nd, hfind, ?_,
        rep_remove_mid_end l as bs e p nd hrep hfind hprev hnext, rfl, rfl, rfl, ?_⟩
      · unfold dlist_remove
        dsimp only
        rw [if_neg hsz, hfind]
        dsimp only
        rw [if_neg hhead, hprev]
        dsimp only
        rw [hnext]
      · intro x hx
        rw [Arena.find_erase_ne _ e x hx]
        exact find_setNext_data l.arena p nd.next x
    | some j =>
      refine ⟨_, nd, hfind, ?_,
        rep_remove_mid_mid l as bs e p j nd hrep hfind hprev hnext, rfl, rfl, rfl, ?_⟩
      · unfold dlist_remove
        dsimp only
        rw [if_neg hsz, hfind]
        dsimp only
        rw [if_neg hhead, hprev]
        dsimp only
        rw [hnext]
      · intro x hx
        rw [Arena.find_erase_ne _ e x hx]
        exact (find_setPrev_data _ j (some p) x).trans (find_setNext_data l.arena p nd.next x)


theorem remove_ok_rep (l l' : DList α) (ids : List Nat) (element : Option Nat)
    (d : α) (hrep : represents l ids)
    (hok : dlist_remove l element = .ok l' d) :
    ∃ ids', represents l' ids' := by
  cases element with
  | none => cases hok
  | some e =>
    cases hfind : l.arena.find e with
    | none =>
      by_cases hsz : l.size = 0
      · unfold dlist_remove at hok
        dsimp only at hok
        rw [if_pos hsz] at hok
        cases hok
      · unfold dlist_remove at hok
        dsimp only at hok
        rw [if_neg hsz, hfind] at hok
        cases hok
    | some nd =>
      have he : e ∈ ids := by
        have hk := mem_keys_of_find l.arena e nd hfind
        rcases hrep with ⟨_, _, _, _, _, h6, _⟩
        exact h6.mem_iff.mp hk
      rcases List.append_of_mem he with ⟨as, bs, hids⟩
      subst hids
      obtain ⟨L, nd2, _, heq, hrep2, _⟩ := remove_ok_spec l as bs e hrep
      rw [heq] at hok
      injection hok with h1 _
      exact ⟨as ++ bs, h1 ▸ hrep2⟩

/-! ### Payload-sequence helpers -/

theorem payloadsOf_append (ar : Arena α) (xs ys : List Nat) :
    payloadsOf ar (xs ++ ys) = payloadsOf ar xs ++ payloadsOf ar ys := by
  unfold payloadsOf
  rw [List.filterMap_append]

theorem payloadsOf_congr (ar ar' : Arena α) (ids : List Nat)
    (h : ∀ x ∈ ids, (ar'.find x).map Node.data = (ar.find x).map Node.data) :
    payloadsOf ar' ids = payloadsOf ar ids := by
  induction ids with
  | nil => rfl
  | cons i rest ih =>
    unfold payloadsOf
    rw [List.filterMap_cons, List.filterMap_cons]
    rw [h i (List.mem_cons_self i rest)]
    have ihr := ih fun x hx => h x (List.mem_cons_of_mem i hx)
    unfold payloadsOf at ihr
    cases (ar.find i).map Node.data with
    | none => exact ihr
    | some d => rw [ihr]

theorem payloadsOf_length (ar : Arena α) (ids : List Nat)
    (h : ∀ x ∈ ids, ∃ nd, ar.find x = some nd) :
    (payloadsOf ar ids).length = ids.length := by
  induction ids with
  | nil => rfl
  | cons i rest ih =>
    unfold payloadsOf
    rw [List.filterMap_cons]
    rcases h i (List.mem_cons_self i rest) with ⟨nd, hnd⟩
    rw [hnd]
    have ihr := ih fun x hx => h x (List.mem_cons_of_mem i hx)
    unfold payloadsOf at ihr
    show ((nd.data :: List.filterMap _ rest)).length = rest.length + 1
    rw [List.length_cons, ihr]

/-! ### The destroy loop -/

theorem destroyLoop_spec (ids : List Nat) :
    ∀ l : DList α, represents l ids →
      ∃ lEnd, destroyLoop l.size l =
          (lEnd, if l.hasDestroy then (payloadsOf l.arena ids).reverse else []) ∧
        represents lEnd [] ∧ lEnd.hasDestroy = l.hasDestroy ∧
        lEnd.hasMatch = l.hasMatch := by
  induction ids using List.reverseRecOn with
  | nil =>
    intro l hrep
    have hsz : l.size = 0 := by
      rcases hrep with ⟨h1, _⟩
      rw [h1]
      rfl
    refine ⟨l, ?_, hrep, rfl, rfl⟩
    rw [hsz]
    show (l, []) = _
    cases l.hasDestroy <;> rfl
  | append_singleton ids0 t ih =>
    intro l hrep
    have h1 : l.size = ids0.length + 1 := by
      rcases hrep with ⟨h1, _⟩
      rw [h1, List.length_append]
      rfl
    have htail : l.tail = some t := by
      rcases hrep with ⟨_, _, h3, _⟩
      rw [h3, List.getLast?_concat]
    have hnodup := hrep.2.2.2.2.1
    have htnotin : t ∉ ids0 := by
      rcases nodup_mid ids0 [] t hnodup with ⟨h, _⟩
      exact h
    obtain ⟨l', nd, hfind, heq, hrep', hd, hm, hf, hdata⟩ :=
      remove_ok_spec l ids0 [] t hrep
    rw [List.append_nil] at hrep'
    have hsz' : l'.size = ids0.length := by
      rcases hrep' with ⟨h1', _⟩
      exact h1'
    obtain ⟨lEnd, hloop, hrepEnd, hdE, hmE⟩ := ih l' hrep'
    rw [hsz'] at hloop
    refine ⟨lEnd, ?_, hrepEnd, hdE.trans hd, hmE.trans hm⟩
    rw [h1]
    show (if l.size = 0 then (l, [])
      else match dlist_remove l l.tail with
        | .ok l2 d2 =>
          ((destroyLoop ids0.length l2).1,
            (if l.hasDestroy then [d2] else []) ++ (destroyLoop ids0.length l2).2)
        | _ => (l, [])) = _
    rw [if_neg (by rw [h1]; exact Nat.succ_ne_zero _), htail, heq]
    dsimp only
    rw [hloop]
    have hpay : payloadsOf l.arena (ids0 ++ [t]) =
        payloadsOf l.arena ids0 ++ [nd.data] := by
      rw [payloadsOf_append]
      unfold payloadsOf
      rw [List.filterMap_cons, hfind]
      rfl
    have hpay' : payloadsOf l'.arena ids0 = payloadsOf l.arena ids0 :=
      payloadsOf_congr l.arena l'.arena ids0
        (fun x hx => hdata x (fun hxt => htnotin (hxt ▸ hx)))
    rw [hd, hpay', hpay]
    cases hld : l.hasDestroy with
    | false => rfl
    | true =>
      rw [if_pos rfl, if_pos rfl]
      rw [List.reverse_append]
      rfl


theorem destroy_spec (l : DList α) (ids : List Nat) (hrep : represents l ids) :
    (dlist_destroy l).2 =
        (if l.hasDestroy then (payloadsOf l.arena ids).reverse else []) ∧
    (dlist_destroy l).1.size = 0 ∧ (dlist_destroy l).1.head = none ∧
    (dlist_destroy l).1.tail = none ∧ (dlist_destroy l).1.arena = [] ∧
    (dlist_destroy l).1.hasDestroy = false ∧ (dlist_destroy l).1.hasMatch = false := by
  obtain ⟨lEnd, hloop, hrepEnd, _, _⟩ := destroyLoop_spec ids l hrep
  have harena : lEnd.arena = [] := by
    rcases hrepEnd with ⟨_, _, _, _, _, h6, _⟩
    have hkeys : lEnd.arena.keys = [] := h6.eq_nil
    have := List.map_eq_nil_iff.mp hkeys
    exact this
  unfold dlist_destroy
  rw [hloop]
  exact ⟨rfl, rfl, rfl, rfl, harena, rfl, rfl⟩

/-! ### The destroy callback is never consulted by `dlist_remove` -/

/-- Transport a C-operation result along a change of the stored
destructor-pointer flag. -/
def CRes.withFlag (b : Bool) : CRes (DList α) β → CRes (DList α) β
  | .err s => .err { s with hasDestroy := b }
  | .ok s out => .ok { s with hasDestroy := b } out
  | .ub => .ub

theorem remove_withFlag (l : DList α) (element : Option Nat) (b : Bool) :
    dlist_remove { l with hasDestroy := b } element =
      CRes.withFlag b (dlist_remove l element) := by
  cases element with
  | none => rfl
  | some e =>
    show dlist_remove { l with hasDestroy := b } (some e) = _
    unfold dlist_remove
    dsimp only
    by_cases hsz : l.size = 0
    · rw [if_pos hsz, if_pos hsz]
      rfl
    · rw [if_neg hsz, if_neg hsz]
      cases hfind : l.arena.find e with
      | none => rfl
      | some nd =>
        dsimp only
        by_cases hh : l.head = some e
        · rw [if_pos hh, if_pos hh]
          cases nd.next <;> rfl
        · rw [if_neg hh, if_neg hh]
          cases nd.prev with
          | none => rfl
          | some p => cases nd.next <;> rfl

/-! ### Net-size accounting over operation sequences -/

theorem step_err_state (l s : DList α) (op : Op α)
    (h : step l op = .err s) : s = l := by
  cases op with
  | insNext e d a =>
    unfold step at h
    dsimp only at h
    split at h
    · cases h
    · rename_i s2 heq
      injection h with h1
      rw [← h1]
      exact ins_next_err l s2 e d a heq
    · cases h
  | insPrev e d a =>
    unfold step at h
    dsimp only at h
    split at h
    · cases h
    · rename_i s2 heq
      injection h with h1
      rw [← h1]
      exact ins_prev_err l s2 e d a heq
    · cases h
  | remove e =>
    unfold step at h
    dsimp only at h
    split at h
    · cases h
    · rename_i s2 heq
      injection h with h1
      rw [← h1]
      exact remove_err l s2 e heq
    · cases h

theorem step_ok_size (l l' : DList α) (op : Op α) (out : Option α)
    (h : step l op = .ok l' out) :
    (op.isIns = true ∧ l'.size = l.size + 1) ∨
    (op.isIns = false ∧ l'.size + 1 = l.size) := by
  cases op with
  | insNext e d a =>
    unfold step at h
    dsimp only at h
    split at h
    · rename_i l2 u heq
      injection h with h1 _
      exact Or.inl ⟨rfl, h1 ▸ ins_next_ok_size l l2 e d a u heq⟩
    · cases h
    · cases h
  | insPrev e d a =>
    unfold step at h
    dsimp only at h
    split at h
    · rename_i l2 u heq
      injection h with h1 _
      exact Or.inl ⟨rfl, h1 ▸ ins_prev_ok_size l l2 e d a u heq⟩
    · cases h
    · cases h
  | remove e =>
    unfold step at h
    dsimp only at h
    split at h
    · rename_i l2 d2 heq
      injection h with h1 _
      exact Or.inr ⟨rfl, h1 ▸ remove_ok_size l l2 e d2 heq⟩
    · cases h
    · cases h

theorem run_size (ops : List (Op α)) :
    ∀ (l l' : DList α) (i r : Nat),
      run l ops = some (l', i, r) → l'.size + r = l.size + i := by
  induction ops with
  | nil =>
    intro l l' i r h
    unfold run at h
    simp only [Option.some_inj, Prod.mk.injEq] at h
    obtain ⟨h1, h2, h3⟩ := h
    rw [← h1, ← h2, ← h3]
  | cons op ops ih =>
    intro l l' i r h
    unfold run at h
    split at h
    · rename_i l2 out heq
      cases hrun : run l2 ops with
      | none =>
        rw [hrun] at h
        cases h
      | some t =>
        obtain ⟨l3, i0, r0⟩ := t
        rw [hrun] at h
        simp only [Option.map_some', Option.some_inj, Prod.mk.injEq] at h
        obtain ⟨h1, h2, h3⟩ := h
        have hsz := step_ok_size l l2 op out heq
        have hih := ih l2 l3 i0 r0 hrun
        cases hins : op.isIns with
        | true =>
          rw [hins] at hsz h2 h3
          rcases hsz with ⟨_, hsz⟩ | ⟨hfalse, _⟩
          · rw [← h1, ← h2, ← h3]
            simp only [eq_self_iff_true, if_true]
            omega
          · cases hfalse
        | false =>
          rw [hins] at hsz h2 h3
          rcases hsz with ⟨htrue, _⟩ | ⟨_, hsz⟩
          · cases htrue
          · rw [← h1, ← h2, ← h3]
            simp only [Bool.false_eq_true, if_false]
            omega
    · rename_i s heq
      have hs := step_err_state l s op heq
      rw [hs] at h
      exact ih l l' i r h
    · cases h


/-! ### Excel column numbers (171-ExcelSheetColumnNumber.cpp) -/

/-- `Solution::titleToNumber`: `result = result * 26 + (s[i] - 'A' + 1)`
over the characters of `s`, on a mathematical integer.  The C++ `int` is
exact on this domain as long as the value stays below `2^31` (the claims
only quantify over such strings; beyond them signed overflow is undefined
behaviour in C++ and is not modelled). -/
def titleToNumber (s : String) : Int :=
  s.data.foldl (fun r c => r * 26 + ((c.toNat : Int) - 65 + 1)) 0

/-- The specification formula: the sum over positions `i` of
`(s[i] - 'A' + 1) * 26 ^ (length s - 1 - i)`, written recursively (the
first character carries exponent `length rest`). -/
def specColumnValue : List Char → Int
  | [] => 0
  | c :: rest => ((c.toNat : Int) - 65 + 1) * 26 ^ rest.length + specColumnValue rest

theorem foldl_specColumnValue (cs : List Char) :
    ∀ r : Int, cs.foldl (fun r c => r * 26 + ((c.toNat : Int) - 65 + 1)) r =
      r * 26 ^ cs.length + specColumnValue cs := by
  induction cs with
  | nil =>
    intro r
    simp [specColumnValue]
  | cons c rest ih =>
    intro r
    rw [List.foldl_cons, ih, specColumnValue, List.length_cons]
    ring

/-! ### Concrete states of the spec's §8 scenario -/

/-- State after `InsertAfter(L, None, "A")`. -/
def scn1 : DList String :=
  ⟨1, some 0, some 0, [(0, ⟨"A", none, none⟩)], 1, false, false⟩

/-- State after `InsertAfter(L, head, "B")`. -/
def scn2 : DList String :=
  ⟨2, some 0, some 1, [(1, ⟨"B", some 0, none⟩), (0, ⟨"A", none, some 1⟩)], 2,
    false, false⟩

/-- State after `InsertBefore(L, tail, "C")`. -/
def scn3 : DList String :=
  ⟨3, some 0, some 1,
    [(2, ⟨"C", some 0, some 1⟩), (1, ⟨"B", some 2, none⟩), (0, ⟨"A", none, some 2⟩)],
    3, false, false⟩

/-- State after `Remove(L, head)`. -/
def scn4 : DList String :=
  ⟨2, some 2, some 1, [(2, ⟨"C", none, some 1⟩), (1, ⟨"B", some 2, none⟩)], 3,
    false, false⟩

/-- The payload stored at the node a reference designates. -/
def payloadAt (l : DList α) (ref : Option Nat) : Option α :=
  ref.bind fun i => (l.arena.find i).map Node.data

/-- The node reference one step forward from a reference. -/
def nextOf (l : DList α) (ref : Option Nat) : Option Nat :=
  ref.bind fun i => (l.arena.find i).bind Node.next

/-- The node reference one step backward from a reference. -/
def prevOf (l : DList α) (ref : Option Nat) : Option Nat :=
  ref.bind fun i => (l.arena.find i).bind Node.prev


/-! ### The claims -/

/-- Claim C1 (confirmed): after every successful InsertAfter
(`dlist_ins_next`), InsertBefore (`dlist_ins_prev`) or Remove
(`dlist_remove`) on a well-formed list, the §3 structural invariants
hold: `size == 0` iff head and tail are none; the head node's `prev` and
the tail node's `next` are none; every reachable node's neighbours point
back at it; and the forward scan from head and the backward scan from
tail each visit exactly `size` nodes and agree on membership. -/
theorem C1_success_invariants (l l' : DList α) (ids : List Nat) (op : Op α)
    (out : Option α) (hrep : represents l ids)
    (hok : step l op = .ok l' out) : invariantsHold l' := by
  cases op with
  | insNext e d a =>
    unfold step at hok
    dsimp only at hok
    split at hok
    · rename_i l2 u heq
      injection hok with h1 _
      obtain ⟨ids', hrep2⟩ := ins_next_ok_rep l l2 ids e d a u hrep heq
      exact rep_invariants l' ids' (h1 ▸ hrep2)
    · cases hok
    · cases hok
  | insPrev e d a =>
    unfold step at hok
    dsimp only at hok
    split at hok
    · rename_i l2 u heq
      injection hok with h1 _
      obtain ⟨ids', hrep2⟩ := ins_prev_ok_rep l l2 ids e d a u hrep heq
      exact rep_invariants l' ids' (h1 ▸ hrep2)
    · cases hok
    · cases hok
  | remove e =>
    unfold step at hok
    dsimp only at hok
    split at hok
    · rename_i l2 d2 heq
      injection hok with h1 _
      obtain ⟨ids', hrep2⟩ := remove_ok_rep l l2 ids e d2 hrep heq
      exact rep_invariants l' ids' (h1 ▸ hrep2)
    · cases hok
    · cases hok

/-- Witness for C1 at a concrete input: inserting "A" into a freshly
initialized empty list succeeds and the resulting one-element list
satisfies the invariants. -/
theorem C1_success_invariants_witness :
    invariantsHold
      (⟨1, some 0, some 0, [(0, ⟨"A", none, none⟩)], 1, false, false⟩ :
        DList String) :=
  C1_success_invariants (dlist_init String false false)
    ⟨1, some 0, some 0, [(0, ⟨"A", none, none⟩)], 1, false, false⟩ []
    (Op.insNext none "A" true) none (by decide) rfl

/-- Claim C3 (confirmed): `dlist_remove` returns the failure indicator
`-1` with the list completely unchanged exactly when the supplied element
is `NULL` or the list is empty (including a non-`NULL` element supplied
with an empty list, where the size guard fires before any dereference);
every failing return leaves the caller's list untouched (`.err` carries
the unmutated input state).  The element is only required to be a member
when the list is non-empty, where the C code would dereference it. -/
theorem C3_remove_failure (l : DList α) (ids : List Nat)
    (element : Option Nat) (hrep : represents l ids)
    (hvalid : ∀ e, element = some e → l.size ≠ 0 → e ∈ ids) :
    (dlist_remove l element = .err l ↔ element = none ∨ l.size = 0) ∧
    (∀ s, dlist_remove l element = .err s → s = l) := by
  constructor
  · constructor
    · intro herr
      by_contra hc
      push_neg at hc
      obtain ⟨hne, hsz⟩ := hc
      cases helem : element with
      | none => exact hne helem
      | some e =>
        have he := hvalid e helem hsz
        rcases List.append_of_mem he with ⟨as, bs, hids⟩
        subst hids
        obtain ⟨l2, nd, _, heq, _⟩ := remove_ok_spec l as bs e hrep
        rw [helem, heq] at herr
        cases herr
    · intro hc
      rcases hc with h1 | h2
      · rw [h1]
        rfl
      · cases element with
        | none => rfl
        | some e =>
          unfold dlist_remove
          dsimp only
          rw [if_pos h2]
  · intro s h
    exact remove_err l s element h

/-- Witness for C3 at the empty-list region: removing with a non-`NULL`
element reference from an empty list is a defined C path (the size guard
fires before any dereference), fails, and changes nothing. -/
theorem C3_remove_failure_witness :
    (dlist_remove (dlist_init String false false) (some 0) =
        .err (dlist_init String false false) ↔
      (some 0 : Option Nat) = none ∨ (dlist_init String false false).size = 0) ∧
    (∀ s, dlist_remove (dlist_init String false false) (some 0) = .err s →
      s = dlist_init String false false) :=
  C3_remove_failure (dlist_init String false false) [] (some 0)
    (by decide) (by decide)

/-- Claim C4 (confirmed): on a list of `N` elements whose destructor
callback is registered, `dlist_destroy` invokes the callback exactly `N`
times, once per stored payload (the invocation sequence is the payload
sequence, tail first), and afterwards the list is the post-initialization
sentinel: size zero, no head or tail, no callbacks stored. -/
theorem C4_destroy_callback (l : DList α) (ids : List Nat)
    (hrep : represents l ids) (hcb : l.hasDestroy = true) :
    (dlist_destroy l).2 = (payloadsOf l.arena ids).reverse ∧
    (dlist_destroy l).2.length = l.size ∧
    (dlist_destroy l).1.size = 0 ∧ (dlist_destroy l).1.head = none ∧
    (dlist_destroy l).1.tail = none ∧
    (dlist_destroy l).1.hasDestroy = false ∧
    (dlist_destroy l).1.hasMatch = false := by
  obtain ⟨hcalls, hsz, hh, ht, _, hdn, hmn⟩ := destroy_spec l ids hrep
  rw [hcb, if_pos rfl] at hcalls
  refine ⟨hcalls, ?_, hsz, hh, ht, hdn, hmn⟩
  rw [hcalls, List.length_reverse]
  have hfinds : ∀ x ∈ ids, ∃ nd, l.arena.find x = some nd := by
    intro x hx
    rcases hrep with ⟨_, _, _, _, _, h6, _⟩
    exact Arena.find_isSome_of_mem_keys l.arena x (h6.mem_iff.mpr hx)
  rw [payloadsOf_length l.arena ids hfinds]
  rcases hrep with ⟨h1, _⟩
  exact h1.symm

/-- Witness for C4: destroying a two-element list with a registered
destructor invokes it exactly twice, tail payload first. -/
theorem C4_destroy_callback_witness :
    (dlist_destroy { scn2 with hasDestroy := true }).2 =
      (payloadsOf { scn2 with hasDestroy := true }.arena [0, 1]).reverse ∧
    (dlist_destroy { scn2 with hasDestroy := true }).2.length =
      ({ scn2 with hasDestroy := true } : DList String).size ∧
    (dlist_destroy { scn2 with hasDestroy := true }).1.size = 0 ∧
    (dlist_destroy { scn2 with hasDestroy := true }).1.head = none ∧
    (dlist_destroy { scn2 with hasDestroy := true }).1.tail = none ∧
    (dlist_destroy { scn2 with hasDestroy := true }).1.hasDestroy = false ∧
    (dlist_destroy { scn2 with hasDestroy := true }).1.hasMatch = false :=
  C4_destroy_callback { scn2 with hasDestroy := true } [0, 1] (by decide) rfl

/-- Claim C5 (confirmed): the spec's §8 concrete scenario, step by step:
sizes 1, 2, 3 after the three insertions, head and tail as described,
order A, C, B after the third insertion, `Remove(L, head)` returning "A"
with new head "C" and size 2, and `Destroy` leaving the empty sentinel. -/
theorem C5_scenario :
    dlist_ins_next (dlist_init String false false) none "A" true = .ok scn1 () ∧
    scn1.size = 1 ∧ scn1.head = scn1.tail ∧ payloadAt scn1 scn1.head = some "A" ∧
    dlist_ins_next scn1 scn1.head "B" true = .ok scn2 () ∧
    scn2.size = 2 ∧ payloadAt scn2 scn2.head = some "A" ∧
    payloadAt scn2 scn2.tail = some "B" ∧
    payloadAt scn2 (nextOf scn2 scn2.head) = some "B" ∧
    payloadAt scn2 (prevOf scn2 scn2.tail) = some "A" ∧
    dlist_ins_prev scn2 scn2.tail "C" true = .ok scn3 () ∧
    scn3.size = 3 ∧
    payloadsOf scn3.arena (scanFwd scn3.arena scn3.size scn3.head) =
      ["A", "C", "B"] ∧
    dlist_remove scn3 scn3.head = .ok scn4 "A" ∧
    scn4.size = 2 ∧ payloadAt scn4 scn4.head = some "C" ∧
    dlist_destroy scn4 = (⟨0, none, none, [], 3, false, false⟩, []) := by
  decide

/-- Claim C6 (confirmed): over any sequence of InsertAfter, InsertBefore
and Remove calls on a freshly initialized list (none of which runs into
undefined behaviour), the final `size` equals the number of successful
insertions minus the number of successful removals. -/
theorem C6_net_size (α : Type u) (d m : Bool) (ops : List (Op α))
    (l' : DList α) (i r : Nat)
    (h : run (dlist_init α d m) ops = some (l', i, r)) :
    l'.size + r = i := by
  have hr := run_size ops (dlist_init α d m) l' i r h
  simpa [dlist_init] using hr

/-- Witness for C6: one successful insertion followed by one successful
removal leaves size `0 = 1 - 1`. -/
theorem C6_net_size_witness :
    (⟨0, none, none, [], 1, false, false⟩ : DList String).size + 1 = 1 :=
  C6_net_size String false false
    [Op.insNext none "A" true, Op.remove (some 0)]
    ⟨0, none, none, [], 1, false, false⟩ 1 1 (by decide)

/-- Claim C7 (confirmed): for every payload `x`, InsertAfter with a
`NULL` reference on a freshly initialized empty list followed by Remove
of the head succeeds, returns `x` back, and restores size 0 with no head
and no tail (and an empty heap); only the allocation counter of the
model differs from the freshly initialized list. -/
theorem C7_roundtrip (α : Type u) (x : α) (d m : Bool) :
    dlist_ins_next (dlist_init α d m) none x true =
      .ok ⟨1, some 0, some 0, [(0, ⟨x, none, none⟩)], 1, d, m⟩ () ∧
    dlist_remove (⟨1, some 0, some 0, [(0, ⟨x, none, none⟩)], 1, d, m⟩ : DList α)
        ((⟨1, some 0, some 0, [(0, ⟨x, none, none⟩)], 1, d, m⟩ : DList α).head) =
      .ok ⟨0, none, none, [], 1, d, m⟩ x ∧
    (⟨0, none, none, [], 1, d, m⟩ : DList α).size = (dlist_init α d m).size ∧
    (⟨0, none, none, [], 1, d, m⟩ : DList α).head = (dlist_init α d m).head ∧
    (⟨0, none, none, [], 1, d, m⟩ : DList α).tail = (dlist_init α d m).tail ∧
    (⟨0, none, none, [], 1, d, m⟩ : DList α).arena = (dlist_init α d m).arena :=
  ⟨rfl, rfl, rfl, rfl, rfl, rfl⟩


/-- Counterexample to claim C2 as stated: a non-`NULL` element reference
supplied while the list is empty is the InvalidReference case the claim
says must fail, yet `dlist_ins_next` succeeds — the guard in dlist.c only
rejects `element == NULL && size != 0`, so on an empty list the reference
is ignored and the payload becomes the sole element. -/
theorem C2_counterexample :
    (some 0 : Option Nat) ≠ none ∧
    (dlist_init String false false).size = 0 ∧
    dlist_ins_next (dlist_init String false false) (some 0) "x" true =
      .ok ⟨1, some 0, some 0, [(0, ⟨"x", none, none⟩)], 1, false, false⟩ () := by
  decide

/-- Is the operation result a success (`return 0`)? -/
def CRes.isOk : CRes σ β → Bool
  | .ok _ _ => true
  | _ => false

/-- Claim C2 (corrected): on a well-formed list, InsertAfter and
InsertBefore fail — returning `-1` with the list unchanged — exactly
when the element is `NULL` while the list is non-empty, or when
allocation fails; in every other case they succeed.  That includes the
region the correction is about: a non-`NULL` reference supplied with an
empty list is accepted and ignored (the element is only required to be a
member when the list is non-empty, where the C code would dereference
it). -/
theorem C2_insert_failure (l : DList α) (ids : List Nat)
    (element : Option Nat) (data : α) (allocOk : Bool)
    (hrep : represents l ids)
    (hvalid : ∀ e, element = some e → l.size ≠ 0 → e ∈ ids) :
    (dlist_ins_next l element data allocOk = .err l ↔
      (element = none ∧ l.size ≠ 0) ∨ allocOk = false) ∧
    (dlist_ins_prev l element data allocOk = .err l ↔
      (element = none ∧ l.size ≠ 0) ∨ allocOk = false) ∧
    (¬ ((element = none ∧ l.size ≠ 0) ∨ allocOk = false) →
      (dlist_ins_next l element data allocOk).isOk = true ∧
      (dlist_ins_prev l element data allocOk).isOk = true) ∧
    (∀ s, dlist_ins_next l element data allocOk = .err s → s = l) ∧
    (∀ s, dlist_ins_prev l element data allocOk = .err s → s = l) := by
  have hsucc : ¬ ((element = none ∧ l.size ≠ 0) ∨ allocOk = false) →
      (dlist_ins_next l element data allocOk).isOk = true ∧
      (dlist_ins_prev l element data allocOk).isOk = true := by
    intro hc
    have hc1 : ¬ (element = none ∧ l.size ≠ 0) := fun h => hc (Or.inl h)
    have hc2 : allocOk ≠ false := fun h => hc (Or.inr h)
    have ha : allocOk = true := by
      cases allocOk with
      | false => exact absurd rfl hc2
      | true => rfl
    subst ha
    by_cases hsz : l.size = 0
    · constructor
      · unfold dlist_ins_next
        rw [if_neg hc1, if_neg (by simp), if_pos hsz]
        rfl
      · unfold dlist_ins_prev
        rw [if_neg hc1, if_neg (by simp), if_pos hsz]
        rfl
    · cases helem : element with
      | none => exact absurd ⟨rfl, hsz⟩ (helem ▸ hc1)
      | some e =>
        have he : e ∈ ids := hvalid e helem hsz
        have hkey : e ∈ l.arena.keys := by
          rcases hrep with ⟨_, _, _, _, _, h6, _⟩
          exact h6.mem_iff.mpr he
        obtain ⟨nd, hfind⟩ := Arena.find_isSome_of_mem_keys l.arena e hkey
        subst helem
        constructor
        · unfold dlist_ins_next
          rw [if_neg hc1, if_neg (by simp), if_neg hsz]
          dsimp only
          rw [hfind]
          dsimp only
          cases hnext : nd.next with
          | none => rfl
          | some j => rfl
        · unfold dlist_ins_prev
          rw [if_neg hc1, if_neg (by simp), if_neg hsz]
          dsimp only
          rw [hfind]
          dsimp only
          cases hprev : nd.prev with
          | none => rfl
          | some q => rfl
  have hcond : ∀ hc : (element = none ∧ l.size ≠ 0) ∨ allocOk = false,
      dlist_ins_next l element data allocOk = .err l ∧
      dlist_ins_prev l element data allocOk = .err l := by
    intro hc
    constructor
    · unfold dlist_ins_next
      rcases hc with h1 | hA
      · rw [if_pos h1]
      · by_cases h1 : element = none ∧ l.size ≠ 0
        · rw [if_pos h1]
        · rw [if_neg h1, if_pos hA]
    · unfold dlist_ins_prev
      rcases hc with h1 | hA
      · rw [if_pos h1]
      · by_cases h1 : element = none ∧ l.size ≠ 0
        · rw [if_pos h1]
        · rw [if_neg h1, if_pos hA]
  refine ⟨⟨?_, fun hc => (hcond hc).1⟩, ⟨?_, fun hc => (hcond hc).2⟩, hsucc,
    fun s h => ins_next_err l s element data allocOk h,
    fun s h => ins_prev_err l s element data allocOk h⟩
  · intro herr
    by_contra hcn
    have hok := (hsucc hcn).1
    rw [herr] at hok
    cases hok
  · intro herr
    by_contra hcn
    have hok := (hsucc hcn).2
    rw [herr] at hok
    cases hok

/-- Witness for the corrected C2 at the region the correction is about:
a non-`NULL` element reference supplied with an empty list is not a
failure case — both insertions succeed there, with the reference ignored
and never dereferenced. -/
theorem C2_insert_failure_witness :
    (dlist_ins_next (dlist_init String false false) (some 0) "y" true =
        .err (dlist_init String false false) ↔
      ((some 0 : Option Nat) = none ∧ (dlist_init String false false).size ≠ 0) ∨
        true = false) ∧
    (dlist_ins_prev (dlist_init String false false) (some 0) "y" true =
        .err (dlist_init String false false) ↔
      ((some 0 : Option Nat) = none ∧ (dlist_init String false false).size ≠ 0) ∨
        true = false) ∧
    (¬ (((some 0 : Option Nat) = none ∧ (dlist_init String false false).size ≠ 0) ∨
        true = false) →
      (dlist_ins_next (dlist_init String false false) (some 0) "y" true).isOk = true ∧
      (dlist_ins_prev (dlist_init String false false) (some 0) "y" true).isOk = true) ∧
    (∀ s, dlist_ins_next (dlist_init String false false) (some 0) "y" true = .err s →
      s = dlist_init String false false) ∧
    (∀ s, dlist_ins_prev (dlist_init String false false) (some 0) "y" true = .err s →
      s = dlist_init String false false) :=
  C2_insert_failure (dlist_init String false false) [] (some 0) "y" true
    (by decide) (by decide)

/-- Counterexample to claim C8 as stated: `dlist_destroy` always ends
with `memset(list, 0, sizeof(DList))`, so on a freshly initialized empty
list whose destructor and matcher callbacks are non-`NULL` it clears the
stored callbacks — destroying such a list is not a no-op on every field. -/
theorem C8_counterexample :
    (dlist_init String true true).hasDestroy = true ∧
    (dlist_init String true true).hasMatch = true ∧
    (dlist_destroy (dlist_init String true true)).1.hasDestroy = false ∧
    (dlist_destroy (dlist_init String true true)).1.hasMatch = false ∧
    (dlist_destroy (dlist_init String true true)).1 ≠ dlist_init String true true := by
  decide

/-- Claim C8 (corrected): destroying an empty, freshly initialized list
performs no removals and leaves size, head and tail in the sentinel
state, but zeroes the whole struct, clearing any stored callbacks; when
no callbacks were registered the first Destroy is a complete no-op, and
a second Destroy without re-initialization changes nothing. -/
theorem C8_destroy_empty (α : Type u) (d m : Bool) :
    dlist_destroy (dlist_init α d m) =
      (⟨0, none, none, [], 0, false, false⟩, ([] : List α)) ∧
    dlist_destroy (⟨0, none, none, [], 0, false, false⟩ : DList α) =
      (⟨0, none, none, [], 0, false, false⟩, []) ∧
    dlist_init α false false = ⟨0, none, none, [], 0, false, false⟩ :=
  ⟨rfl, rfl, rfl⟩

/-- Claim C9 (confirmed): a successful `dlist_remove` of a member of a
well-formed list returns exactly the payload stored in the removed node,
and never consults the destructor callback: the stored callbacks are
unchanged, and flipping the registered-destructor flag commutes with the
whole operation. -/
theorem C9_remove_payload (l : DList α) (as bs : List Nat) (e : Nat)
    (hrep : represents l (as ++ e :: bs)) :
    ∃ l' nd, l.arena.find e = some nd ∧
      dlist_remove l (some e) = .ok l' nd.data ∧
      l'.hasDestroy = l.hasDestroy ∧ l'.hasMatch = l.hasMatch ∧
      ∀ b : Bool, dlist_remove { l with hasDestroy := b } (some e) =
        .ok { l' with hasDestroy := b } nd.data := by
  obtain ⟨l', nd, hfind, heq, _, hd, hm, _, _⟩ := remove_ok_spec l as bs e hrep
  refine ⟨l', nd, hfind, heq, hd, hm, ?_⟩
  intro b
  rw [remove_withFlag, heq]
  rfl

/-- Witness for C9: removing the head of the two-element scenario list. -/
theorem C9_remove_payload_witness :
    ∃ l' nd, scn2.arena.find 0 = some nd ∧
      dlist_remove scn2 (some 0) = .ok l' nd.data ∧
      l'.hasDestroy = scn2.hasDestroy ∧ l'.hasMatch = scn2.hasMatch ∧
      ∀ b : Bool, dlist_remove { scn2 with hasDestroy := b } (some 0) =
        .ok { l' with hasDestroy := b } nd.data :=
  C9_remove_payload scn2 [] [1] 0 (by decide)

/-- Claim C10 (confirmed): for every string of characters 'A'..'Z' whose
bijective base-26 value stays below `2^31` (the domain on which C++ `int`
arithmetic is exact), `titleToNumber` returns the sum over positions of
`(s[i] - 'A' + 1) * 26 ^ (length - 1 - i)`; in particular 0 for the
empty string, 1 for "A", 26 for "Z" and 27 for "AA". -/
theorem C10_titleToNumber (s : String)
    (_h1 : ∀ c ∈ s.data, 'A' ≤ c ∧ c ≤ 'Z')
    (_h2 : specColumnValue s.data < 2 ^ 31) :
    titleToNumber s = specColumnValue s.data ∧
    titleToNumber "" = 0 ∧ titleToNumber "A" = 1 ∧
    titleToNumber "Z" = 26 ∧ titleToNumber "AA" = 27 := by
  refine ⟨?_, by decide, by decide, by decide, by decide⟩
  unfold titleToNumber
  rw [foldl_specColumnValue]
  simp

/-- Witness for C10 at the concrete input "AA", whose value 27 is in
range. -/
theorem C10_titleToNumber_witness :
    titleToNumber "AA" = specColumnValue "AA".data ∧
    titleToNumber "" = 0 ∧ titleToNumber "A" = 1 ∧
    titleToNumber "Z" = 26 ∧ titleToNumber "AA" = 27 :=
  C10_titleToNumber "AA" (by decide) (by decide)

end DL
